import Mathlib

/-!
Verification development for the llm-middleware tool-calling core.

This file gives a shallow embedding of the repository's tool-calling
orchestration loop (`app/services/llm_service.py`), the prompt protocol codec
(`app/services/prompt_builder.py`), the calculator tool
(`app/tools/calculator.py`) and the concurrent multi-URL scraper
(`app/services/web_scraper.py`), together with theorems about the embedded
definitions.

Modelling conventions:
- Python dicts/JSON values are modelled by the inductive type `Json`
  (associative lists for objects, insertion order preserved, lookups are
  last-write-wins as in Python dicts built from JSON).
- The Python `json` standard library (external to the repository) is modelled
  by an executable recursive-descent parser `loads` and serializers
  `dumpChars` / `dumpsIndent` over the integer/string/bool/null/array/object
  fragment of JSON (floats and \u escapes are not modelled; no claim
  exercises them).
- The two `re.findall` calls in `parse_tool_call_from_response` are modelled
  by executable scanners (`findBlocksAux`, `findInlineAux`) implementing the
  leftmost, non-overlapping match semantics of the concrete patterns.
- Exceptions are modelled by `Except` results; a Python exception value is a
  pair of message and exception-type name.
-/

/-- JSON values / Python dict-like data, as produced by `json.loads`. Numbers
are restricted to integers (no claim involves floats). -/
inductive Json where
  | null : Json
  | bool (b : Bool) : Json
  | num (n : Int) : Json
  | str (s : String) : Json
  | arr (elems : List Json) : Json
  | obj (members : List (String × Json)) : Json

/-- Python truthiness of a JSON value (`if not x` semantics). -/
def Json.truthy : Json → Bool
  | .null => false
  | .bool b => b
  | .num n => n != 0
  | .str s => s ≠ ""
  | .arr l => !l.isEmpty
  | .obj l => !l.isEmpty

/-- Python `dict.get(k)` on an object member list: last write wins, as in a
dict built from a JSON document with (possibly) duplicate keys. -/
def pyGet (kvs : List (String × Json)) (k : String) : Option Json :=
  kvs.foldl (fun acc p => if p.fst = k then some p.snd else acc) none

/-- Python `dict.get(k, d)` with a default. -/
def pyGetD (kvs : List (String × Json)) (k : String) (d : Json) : Json :=
  (pyGet kvs k).getD d

/-- Whitespace characters accepted by the JSON grammar. -/
def isJsonWs (c : Char) : Bool :=
  c = ' ' || c = '\t' || c = '\n' || c = '\r'

/-- Drop leading JSON whitespace. -/
def skipWs (cs : List Char) : List Char :=
  cs.dropWhile isJsonWs

/-- Unescape one JSON string escape character (after a backslash). `\u` is not
modelled. -/
def unescapeChar (c : Char) : Option Char :=
  if c = '"' then some '"'
  else if c = '\\' then some '\\'
  else if c = '/' then some '/'
  else if c = 'n' then some '\n'
  else if c = 't' then some '\t'
  else if c = 'r' then some '\r'
  else if c = 'b' then some (Char.ofNat 8)
  else if c = 'f' then some (Char.ofNat 12)
  else none

/-- Parse the body of a JSON string literal (after the opening quote),
returning the decoded characters and the remainder after the closing quote. -/
def parseStrChars : List Char → Option (List Char × List Char)
  | [] => none
  | c :: rest =>
    if c = '"' then some ([], rest)
    else if c = '\\' then
      match rest with
      | [] => none
      | c2 :: rest2 =>
        match unescapeChar c2 with
        | some u => (parseStrChars rest2).map (fun p => (u :: p.fst, p.snd))
        | none => none
    else (parseStrChars rest).map (fun p => (c :: p.fst, p.snd))

/-- Numeric value of a digit run. -/
def digitsToNat (ds : List Char) : Nat :=
  ds.foldl (fun a c => a * 10 + (c.toNat - '0'.toNat)) 0

/-- Parse a JSON integer literal (optionally negative). A following `.`, `e`
or `E` (a float literal) is not modelled and fails. -/
def parseNumber (cs : List Char) : Option (Json × List Char) :=
  let neg := decide (cs.head? = some '-')
  let cs2 := if neg then cs.tail else cs
  let ds := cs2.takeWhile Char.isDigit
  let rest := cs2.dropWhile Char.isDigit
  if ds.isEmpty then none
  else
    match rest with
    | c :: _ => if c = '.' || c = 'e' || c = 'E' then none
        else some (.num (if neg then -(digitsToNat ds : Int) else (digitsToNat ds : Int)), rest)
    | [] => some (.num (if neg then -(digitsToNat ds : Int) else (digitsToNat ds : Int)), [])

mutual

/-- Parse one JSON value. The fuel bounds the recursion depth; `loads` passes
`length + 1`, which always suffices because every recursive call consumes at
least one input character first. -/
def parseValue : Nat → List Char → Option (Json × List Char)
  | 0, _ => none
  | fuel + 1, cs =>
    match cs with
    | '{' :: rest =>
      match skipWs rest with
      | '}' :: rest2 => some (.obj [], rest2)
      | rest1 => (parseMembers fuel rest1).map (fun p => (.obj p.fst, p.snd))
    | '[' :: rest =>
      match skipWs rest with
      | ']' :: rest2 => some (.arr [], rest2)
      | rest1 => (parseElems fuel rest1).map (fun p => (.arr p.fst, p.snd))
    | '"' :: rest => (parseStrChars rest).map (fun p => (.str (String.mk p.fst), p.snd))
    | 't' :: 'r' :: 'u' :: 'e' :: rest => some (.bool true, rest)
    | 'f' :: 'a' :: 'l' :: 's' :: 'e' :: rest => some (.bool false, rest)
    | 'n' :: 'u' :: 'l' :: 'l' :: rest => some (.null, rest)
    | _ => parseNumber cs

/-- Parse the members of a JSON object, after the opening brace and leading
whitespace, up to and including the closing brace. -/
def parseMembers : Nat → List Char → Option (List (String × Json) × List Char)
  | 0, _ => none
  | fuel + 1, cs =>
    match cs with
    | '"' :: rest =>
      match parseStrChars rest with
      | none => none
      | some (kcs, rest1) =>
        match skipWs rest1 with
        | ':' :: rest2 =>
          match parseValue fuel (skipWs rest2) with
          | none => none
          | some (v, rest3) =>
            match skipWs rest3 with
            | ',' :: rest4 =>
              match parseMembers fuel (skipWs rest4) with
              | none => none
              | some (tl, rest5) => some ((String.mk kcs, v) :: tl, rest5)
            | '}' :: rest4 => some ([(String.mk kcs, v)], rest4)
            | _ => none
        | _ => none
    | _ => none

/-- Parse the elements of a JSON array, after the opening bracket and leading
whitespace, up to and including the closing bracket. -/
def parseElems : Nat → List Char → Option (List Json × List Char)
  | 0, _ => none
  | fuel + 1, cs =>
    match parseValue fuel cs with
    | none => none
    | some (v, rest) =>
      match skipWs rest with
      | ',' :: rest2 =>
        match parseElems fuel (skipWs rest2) with
        | none => none
        | some (tl, rest3) => some (v :: tl, rest3)
      | ']' :: rest2 => some ([v], rest2)
      | _ => none

end

/-- Model of `json.loads` on a character list: parse one document surrounded
by optional whitespace; anything trailing is a parse error. -/
def loads (cs : List Char) : Option Json :=
  match parseValue (cs.length + 1) (skipWs cs) with
  | some (v, rest) => if skipWs rest = [] then some v else none
  | none => none

/-- Model of `json.loads` on a string. -/
def loadsStr (s : String) : Option Json :=
  loads s.toList

/-- Escape one character as in `json.dumps` (with `ensure_ascii=False`).
Control-character `\u` escapes are not modelled. -/
def escChar (c : Char) : List Char :=
  if c = '"' then ['\\', '"']
  else if c = '\\' then ['\\', '\\']
  else if c = '\n' then ['\\', 'n']
  else if c = '\t' then ['\\', 't']
  else if c = '\r' then ['\\', 'r']
  else [c]

/-- Escape a character list as a JSON string body. -/
def escChars : List Char → List Char
  | [] => []
  | c :: rest => escChar c ++ escChars rest

/-- Serialize a string as a JSON string literal (character list). -/
def dumpStrChars (s : String) : List Char :=
  '"' :: escChars s.toList ++ ['"']

mutual

/-- Model of `json.dumps` with the default separators `", "` and `": "`
(compact form), as a character list. -/
def dumpChars : Json → List Char
  | .null => "null".toList
  | .bool b => if b then "true".toList else "false".toList
  | .num n => (toString n).toList
  | .str s => dumpStrChars s
  | .arr elems => '[' :: dumpElemsChars elems ++ [']']
  | .obj kvs => '{' :: dumpMembersChars kvs ++ ['}']

/-- Serialize object members, `", "`-separated. -/
def dumpMembersChars : List (String × Json) → List Char
  | [] => []
  | [(k, v)] => dumpStrChars k ++ ':' :: ' ' :: dumpChars v
  | (k, v) :: kv2 :: tl =>
    dumpStrChars k ++ ':' :: ' ' :: dumpChars v ++ ',' :: ' ' :: dumpMembersChars (kv2 :: tl)

/-- Serialize array elements, `", "`-separated. -/
def dumpElemsChars : List Json → List Char
  | [] => []
  | [v] => dumpChars v
  | v :: v2 :: tl => dumpChars v ++ ',' :: ' ' :: dumpElemsChars (v2 :: tl)

end

/-- Model of `json.dumps(v)` (compact, default separators). -/
def dumps (v : Json) : String :=
  String.mk (dumpChars v)

/-- Substring test on character lists (Python `in` for strings). -/
def hasSubList (pat : List Char) : List Char → Bool
  | [] => pat.isEmpty
  | c :: rest => pat.isPrefixOf (c :: rest) || hasSubList pat rest

/-- Substring test on strings. -/
def hasSubStr (s pat : String) : Bool :=
  hasSubList pat.toList s.toList

/-- The seven characters of the fence tag scanned for by strategy 2 of
`parse_tool_call_from_response` (the regex literal before the whitespace and
the captured group). -/
def fenceTag : List Char :=
  ['`', '`', '`', 'j', 's', 'o', 'n']

/-- Three backticks, the closing fence of strategy 2's pattern. -/
def fenceClose : List Char :=
  ['`', '`', '`']

/-- Emulates the non-greedy part of the strategy-2 regex: having seen
`  ```json \s* {  `, scan the remaining characters for the first
closing brace that is followed by optional whitespace and three backticks.
Returns the captured group (reconstructed from the accumulator) and the
remainder after the closing fence. -/
def findBlockEnd (acc : List Char) : List Char → Option (List Char × List Char)
  | [] => none
  | c :: rest =>
    if c = '}' && fenceClose.isPrefixOf (rest.dropWhile isJsonWs) then
      some ('{' :: acc.reverse ++ ['}'], (rest.dropWhile isJsonWs).drop 3)
    else
      findBlockEnd (c :: acc) rest

/-- Scanner for strategy 2's `re.findall` over the whole text: at each
position where the fence tag occurs, attempt the block match; on success emit
the captured group and resume after the match, otherwise advance one
character (leftmost, non-overlapping match semantics). The fuel is the input
length plus one, which suffices since every step consumes input. -/
def findBlocksAux : Nat → List Char → List (List Char)
  | 0, _ => []
  | _, [] => []
  | fuel + 1, c :: rest =>
    if fenceTag.isPrefixOf (c :: rest) then
      match (List.drop 7 (c :: rest)).dropWhile isJsonWs with
      | '{' :: inner =>
        match findBlockEnd [] inner with
        | some (block, resume) => block :: findBlocksAux fuel resume
        | none => findBlocksAux fuel rest
      | _ => findBlocksAux fuel rest
    else
      findBlocksAux fuel rest

/-- Model of strategy 2's candidate extraction:
`re.findall(r'(three backticks)json\s*(\x7b.*?\x7d)\s*(three backticks)', text, re.DOTALL)`. -/
def extractJsonBlocks (s : String) : List String :=
  (findBlocksAux (s.toList.length + 1) s.toList).map String.mk

/-- The literal `"tool_call"` (with its quotes) required inside a strategy-3
candidate. -/
def toolCallLit : List Char :=
  '"' :: ['t', 'o', 'o', 'l', '_', 'c', 'a', 'l', 'l'] ++ ['"']

/-- Attempt the strategy-3 pattern at a position whose first character is an
opening brace: `\x7b[^\x7b\x7d]*"tool_call"[^\x7b\x7d]*\x7b[^\x7d]*\x7d[^\x7d]*\x7d`.
A maximal run of non-brace characters must contain the literal `"tool_call"`
and be followed by an opening brace; the remaining two bracketed runs cannot
cross a closing brace. Returns the full match and the remainder after it. -/
def inlineMatchAt : List Char → Option (List Char × List Char)
  | '{' :: rest =>
    let runA := rest.takeWhile (fun c => !(c = '{' || c = '}'))
    let restA := rest.dropWhile (fun c => !(c = '{' || c = '}'))
    if hasSubList toolCallLit runA then
      match restA with
      | '{' :: rest2 =>
        let runC := rest2.takeWhile (fun c => !(c = '}'))
        match rest2.dropWhile (fun c => !(c = '}')) with
        | '}' :: rest3 =>
          let runD := rest3.takeWhile (fun c => !(c = '}'))
          match rest3.dropWhile (fun c => !(c = '}')) with
          | '}' :: rest4 =>
            some ('{' :: runA ++ '{' :: runC ++ '}' :: runD ++ ['}'], rest4)
          | _ => none
        | _ => none
      | _ => none
    else none
  | _ => none

/-- Scanner for strategy 3's `re.findall`: try the inline pattern at every
opening brace, emitting matches left to right without overlap. -/
def findInlineAux : Nat → List Char → List (List Char)
  | 0, _ => []
  | _, [] => []
  | fuel + 1, c :: rest =>
    if c = '{' then
      match inlineMatchAt (c :: rest) with
      | some (m, resume) => m :: findInlineAux fuel resume
      | none => findInlineAux fuel rest
    else
      findInlineAux fuel rest

/-- Model of strategy 3's candidate extraction. -/
def extractInlineObjs (s : String) : List String :=
  (findInlineAux (s.toList.length + 1) s.toList).map String.mk

/-- A Python exception value: message and exception-type name. -/
def PyErr : Type :=
  String × String

/-- Model of the body shared by all three strategies:
`data = json.loads(...)` (a failure is caught), then
`if "tool_call" in data: return data["tool_call"]`. For a non-dict document
the membership test or the subscript can raise `TypeError`, which the
function does not catch. -/
def checkToolCall : Option Json → Except PyErr (Option Json)
  | none => .ok none
  | some (.obj kvs) => .ok (pyGet kvs "tool_call")
  | some (.str t) =>
    if hasSubStr t "tool_call" then
      .error ("string indices must be integers", "TypeError")
    else .ok none
  | some (.arr xs) =>
    if xs.any (fun j => match j with | .str t => t = "tool_call" | _ => false) then
      .error ("list indices must be integers or slices, not str", "TypeError")
    else .ok none
  | some (.num _) => .error ("argument of type \x27int\x27 is not iterable", "TypeError")
  | some (.bool _) => .error ("argument of type \x27bool\x27 is not iterable", "TypeError")
  | some .null => .error ("argument of type \x27NoneType\x27 is not iterable", "TypeError")

/-- Iterate strategy 2 or 3 candidates in order: a candidate whose JSON is
malformed is skipped, a parsed candidate without the key falls through to the
next candidate, and the first candidate with the key returns its value. -/
def tryCandidates : List String → Except PyErr (Option Json)
  | [] => .ok none
  | cand :: rest =>
    match loadsStr cand with
    | none => tryCandidates rest
    | some v =>
      match checkToolCall (some v) with
      | .error e => .error e
      | .ok (some x) => .ok (some x)
      | .ok none => tryCandidates rest

/-- Strategies 2 and 3 of `parse_tool_call_from_response`, tried after the
whole-text parse: fenced `json` blocks first, then inline objects containing
`"tool_call"`. -/
def strategy23 (s : String) : Except PyErr (Option Json) :=
  match tryCandidates (extractJsonBlocks s) with
  | .error e => .error e
  | .ok (some v) => .ok (some v)
  | .ok none => tryCandidates (extractInlineObjs s)

/-- Model of `parse_tool_call_from_response` (prompt_builder.py lines
87-144): empty text yields no call; otherwise strategy 1 parses the whole
text, strategy 2 scans fenced `json` blocks, strategy 3 scans inline objects
containing `"tool_call"`; exhaustion yields no call. An uncaught `TypeError`
from the membership test is modelled as an `Except.error`. The `.strip()`
before strategy 1 is absorbed into `loads`, which itself skips surrounding
whitespace. -/
def parse_tool_call_from_response (s : String) : Except PyErr (Option Json) :=
  if s = "" then .ok none
  else
    match checkToolCall (loadsStr s) with
    | .error e => .error e
    | .ok (some v) => .ok (some v)
    | .ok none => strategy23 s

/-- Indentation of `2 * lvl` spaces, as emitted by `json.dumps(..., indent=2)`. -/
def indentSp (lvl : Nat) : List Char :=
  List.replicate (2 * lvl) ' '

mutual

/-- Model of `json.dumps(v, ensure_ascii=False, indent=2)` at nesting level
`lvl`, as used by `format_tool_result`. -/
def dumpIndentChars : Nat → Json → List Char
  | _, .null => "null".toList
  | _, .bool b => if b then "true".toList else "false".toList
  | _, .num n => (toString n).toList
  | _, .str s => dumpStrChars s
  | _, .arr [] => ['[', ']']
  | lvl, .arr (v :: tl) =>
    '[' :: '\n' :: dumpIndentElems (lvl + 1) (v :: tl) ++ '\n' :: (indentSp lvl ++ [']'])
  | _, .obj [] => ['{', '}']
  | lvl, .obj (kv :: tl) =>
    '{' :: '\n' :: dumpIndentMembers (lvl + 1) (kv :: tl) ++ '\n' :: (indentSp lvl ++ ['}'])

/-- Indented object members, `",\n"`-separated. -/
def dumpIndentMembers : Nat → List (String × Json) → List Char
  | _, [] => []
  | lvl, [(k, v)] => indentSp lvl ++ dumpStrChars k ++ ':' :: ' ' :: dumpIndentChars lvl v
  | lvl, (k, v) :: kv2 :: tl =>
    indentSp lvl ++ dumpStrChars k ++ ':' :: ' ' :: dumpIndentChars lvl v ++
      ',' :: '\n' :: dumpIndentMembers lvl (kv2 :: tl)

/-- Indented array elements, `",\n"`-separated. -/
def dumpIndentElems : Nat → List Json → List Char
  | _, [] => []
  | lvl, [v] => indentSp lvl ++ dumpIndentChars lvl v
  | lvl, v :: v2 :: tl =>
    indentSp lvl ++ dumpIndentChars lvl v ++ ',' :: '\n' :: dumpIndentElems lvl (v2 :: tl)

end

/-- Model of `format_tool_result` (prompt_builder.py lines 147-162). -/
def format_tool_result (tool_name : String) (result : Json) : String :=
  "Результат виконання інструмента \x27" ++ tool_name ++ "\x27:\n```json\n" ++
    String.mk (dumpIndentChars 0 result) ++ "\n```\n" ++
    "\nТепер використай цей результат для формування відповіді користувачу."

/-- Capability parameter descriptor (`app/schemas/tools.py`). -/
structure ToolParameter where
  name : String
  type : String
  description : String
  required : Bool

/-- Capability model (`app/tools/base.py`): descriptor plus execution entry
point. Asynchronous execution returning a value or raising is modelled as a
function into `Except`, the error being (message, exception-type name). -/
structure Tool where
  name : String
  description : String
  parameters : List ToolParameter
  execute : List (String × Json) → Except PyErr Json

/-- Registry lookup (`ToolRegistry.get`): a dict keyed by tool name. The
registry itself is the insertion-ordered list of registered tools. -/
def registryGet (reg : List Tool) (n : String) : Option Tool :=
  reg.find? (fun t => t.name == n)

/-- Registry registration (`ToolRegistry.register`): last write wins, the
original insertion position is kept when a name is re-registered (Python dict
update semantics). -/
def registryRegister (reg : List Tool) (t : Tool) : List Tool :=
  if reg.any (fun u => u.name == t.name) then
    reg.map (fun u => if u.name == t.name then t else u)
  else reg ++ [t]

/-- Python `"\n".join(lines)`. -/
def joinLines : List String → String
  | [] => ""
  | [x] => x
  | x :: y :: rest => x ++ "\n" ++ joinLines (y :: rest)

/-- Concatenation of a list of strings. -/
def concatAll : List String → String
  | [] => ""
  | x :: rest => x ++ concatAll rest

/-- One parameter line of the tools prompt (`build_tools_prompt` loop body). -/
def param_line (p : ToolParameter) : String :=
  "  - " ++ p.name ++ " (" ++ p.type ++ ", " ++
    (if p.required then "обов\x27язковий" else "опціональний") ++ "): " ++ p.description

/-- The lines appended for one tool by the `build_tools_prompt` loop. -/
def tool_lines (t : Tool) : List String :=
  ["\n### " ++ t.name, "Опис: " ++ t.description, "Параметри:"] ++
    t.parameters.map param_line

/-- The fixed lines opening the tools prompt. -/
def tools_prompt_header : List String :=
  ["## ДОСТУПНІ ІНСТРУМЕНТИ (TOOLS)\n",
   "Ти маєш доступ до наступних інструментів:\n"]

/-- The fixed lines closing the tools prompt (call syntax and rules). -/
def tools_prompt_footer : List String :=
  ["\n## ЯК ВИКОРИСТОВУВАТИ ІНСТРУМЕНТИ\n",
   "Щоб використати інструмент, поверни JSON у своїй відповіді у форматі:\n",
   "```json\n",
   "\x7b\n",
   "  \"tool_call\": \x7b\n",
   "    \"name\": \"назва_інструмента\",\n",
   "    \"arguments\": \x7b\n",
   "      \"параметр1\": \"значення1\",\n",
   "      \"параметр2\": \"значення2\"\n",
   "    \x7d\n",
   "  \x7d\n",
   "\x7d\n",
   "```\n",
   "\n## ВАЖЛИВІ ПРАВИЛА:\n",
   "1. Якщо потрібен точний розрахунок - використовуй calculator\n",
   "2. Якщо потрібна актуальна інформація - використовуй web_search або news_search\n",
   "3. Якщо потрібен контент сайту - використовуй web_scraper\n",
   "4. Поверни ТІЛЬКИ JSON з tool_call, без додаткового тексту\n",
   "5. Після отримання результату від інструмента, надай користувачу зрозумілу відповідь\n",
   "6. Якщо питання просте і не потребує інструментів - відповідай безпосередньо\n"]

/-- Model of `build_tools_prompt` (prompt_builder.py lines 12-63). -/
def build_tools_prompt (tools : List Tool) : String :=
  if tools.isEmpty then ""
  else joinLines (tools_prompt_header ++ (tools.map tool_lines).flatten ++ tools_prompt_footer)

/-- The fixed persona preamble of the system prompt. -/
def base_system_prompt : String :=
  "Ти - розумний AI асистент з доступом до інструментів.\n" ++
    "Твоя задача - допомагати користувачам, використовуючи доступні інструменти коли це необхідно.\n"

/-- Model of `build_system_prompt_with_tools` (prompt_builder.py lines 66-84). -/
def build_system_prompt_with_tools (tools : List Tool) : String :=
  if tools.isEmpty then base_system_prompt
  else base_system_prompt ++ "\n" ++ build_tools_prompt tools

/-- Tokens of a Python arithmetic expression. -/
inductive ATok where
  | num (n : Int) : ATok
  | plus : ATok
  | minus : ATok
  | star : ATok
  | lpar : ATok
  | rpar : ATok

/-- Tokenize an arithmetic expression (digits, `+ - * ( )` and spaces). -/
def lexArith : Nat → List Char → Option (List ATok)
  | 0, _ => none
  | _, [] => some []
  | fuel + 1, c :: rest =>
    if c = ' ' then lexArith fuel rest
    else if c = '+' then (lexArith fuel rest).map (fun ts => .plus :: ts)
    else if c = '-' then (lexArith fuel rest).map (fun ts => .minus :: ts)
    else if c = '*' then (lexArith fuel rest).map (fun ts => .star :: ts)
    else if c = '(' then (lexArith fuel rest).map (fun ts => .lpar :: ts)
    else if c = ')' then (lexArith fuel rest).map (fun ts => .rpar :: ts)
    else if c.isDigit then
      (lexArith fuel ((c :: rest).dropWhile Char.isDigit)).map
        (fun ts => .num (digitsToNat ((c :: rest).takeWhile Char.isDigit)) :: ts)
    else none

mutual

/-- Evaluate a sum of terms. -/
def aExpr : Nat → List ATok → Option (Int × List ATok)
  | 0, _ => none
  | fuel + 1, ts =>
    match aTerm fuel ts with
    | none => none
    | some (v, rest) => aExprLoop fuel v rest

/-- Left-associative `+`/`-` continuation. -/
def aExprLoop : Nat → Int → List ATok → Option (Int × List ATok)
  | 0, _, _ => none
  | fuel + 1, acc, .plus :: ts =>
    match aTerm fuel ts with
    | none => none
    | some (v, rest) => aExprLoop fuel (acc + v) rest
  | fuel + 1, acc, .minus :: ts =>
    match aTerm fuel ts with
    | none => none
    | some (v, rest) => aExprLoop fuel (acc - v) rest
  | _ + 1, acc, ts => some (acc, ts)

/-- Evaluate a product of factors. -/
def aTerm : Nat → List ATok → Option (Int × List ATok)
  | 0, _ => none
  | fuel + 1, ts =>
    match aFactor fuel ts with
    | none => none
    | some (v, rest) => aTermLoop fuel v rest

/-- Left-associative `*` continuation. -/
def aTermLoop : Nat → Int → List ATok → Option (Int × List ATok)
  | 0, _, _ => none
  | fuel + 1, acc, .star :: ts =>
    match aFactor fuel ts with
    | none => none
    | some (v, rest) => aTermLoop fuel (acc * v) rest
  | _ + 1, acc, ts => some (acc, ts)

/-- Evaluate a literal, a negation or a parenthesized expression. -/
def aFactor : Nat → List ATok → Option (Int × List ATok)
  | 0, _ => none
  | _ + 1, .num n :: ts => some (n, ts)
  | fuel + 1, .minus :: ts => (aFactor fuel ts).map (fun p => (-p.fst, p.snd))
  | fuel + 1, .lpar :: ts =>
    match aExpr fuel ts with
    | some (v, .rpar :: rest) => some (v, rest)
    | _ => none
  | _, _ => none

end

/-- Model of the Python builtin `eval` (external to the repository) on the
integer arithmetic fragment the calculator is meant for: `+ - *`,
parentheses, unary minus and spaces; `none` stands for the evaluation
failures the calculator catches. Division and floats are not modelled; no
claim exercises them. -/
def pyEvalArith (e : String) : Option Int :=
  match lexArith (e.toList.length + 1) e.toList with
  | none => none
  | some ts =>
    match aExpr (4 * ts.length + 8) ts with
    | some (v, []) => some v
    | _ => none

/-- Model of `Calculator.execute` (app/tools/calculator.py): a falsy
expression yields the fixed error object; a string expression is evaluated,
with evaluation failures caught and folded into an error object; a non-string
truthy expression makes `eval` raise. -/
def calculatorExecute (args : List (String × Json)) : Except PyErr Json :=
  let e := pyGetD args "expression" (Json.str "")
  if e.truthy = false then .ok (Json.obj [("error", Json.str "Вираз не передано")])
  else
    match e with
    | .str expr =>
      match pyEvalArith expr with
      | some n => .ok (Json.obj [("result", Json.num n), ("expression", Json.str expr)])
      | none =>
        .ok (Json.obj [("error", Json.str "Помилка обчислення: invalid syntax"),
                       ("expression", Json.str expr)])
    | _ => .error ("eval() arg 1 must be a string, bytes or code object", "TypeError")

/-- The calculator capability (app/tools/calculator.py). -/
def calculator : Tool :=
  { name := "calculator"
    description := "Виконує математичні обчислення. Використовуй для арифметичних операцій."
    parameters := [{ name := "expression"
                     type := "string"
                     description := "Математичний вираз (наприклад, \"2 + 2 * 3\")"
                     required := true }]
    execute := calculatorExecute }

/-- A conversation message (`ChatMessage` of app/schemas/chat.py restricted
to the fields the loop reads and writes: role and content). -/
structure ChatMessage where
  role : String
  content : String
deriving DecidableEq

/-- A provider reply: `response.get("content", "")` and
`response.get("usage")` (Backend Dispatch contract, providers/base.py). -/
structure ProviderReply where
  content : String
  usage : Option Json

/-- Audit entry for one executed tool invocation (`ToolCallInfo` of
app/schemas/chat.py). -/
structure ToolCallInfo where
  tool : String
  arguments : List (String × Json)
  result : Json

/-- Response of the chat service (`ChatResponse` of app/schemas/chat.py). -/
structure ChatResponse where
  success : Bool
  message : ChatMessage
  tool_calls_made : List ToolCallInfo
  usage : Option Json
  provider : String
  model : String

/-- Failure of the tool-calling loop before the service-level wrapping:
either the iteration budget was exhausted (`MaxIterationsException` with its
`iterations` and `tool_calls` details) or an unexpected Python exception
escaped to the outer handler. -/
inductive LoopErr where
  | maxIter (iterations : Nat) (toolCalls : Nat) : LoopErr
  | unexpected (message : String) (errType : String) : LoopErr

/-- Classified failure of the chat service as raised to the caller:
`MaxIterationsException` (message plus `iterations`/`tool_calls` details) or
`ProviderException` (message plus the error-type detail). -/
inductive ChatError where
  | maxIterations (message : String) (iterations : Nat) (toolCalls : Nat) : ChatError
  | provider (message : String) (errType : String) : ChatError

/-- Modelled from the spec: `MAX_TOOL_ITERATIONS` lives in
`app/core/constants.py`, which is not among the provided sources; the spec
fixes the default iteration budget at 10. -/
def MAX_TOOL_ITERATIONS : Nat := 10

/-- Model of `LLMService._add_system_prompt_if_needed` (llm_service.py lines
68-89): prepend a system message exactly when none is present and at least
one tool is registered. -/
def add_system_prompt_if_needed (messages : List ChatMessage) (tools : List Tool) :
    List ChatMessage :=
  if messages.any (fun m => m.role == "system") then messages
  else if tools.isEmpty then messages
  else { role := "system", content := build_system_prompt_with_tools tools } :: messages

/-- The tool-execution phase of one loop iteration (llm_service.py lines
181-217): an unregistered name yields the not-found error object, a raising
execution yields the error object with the failure-kind tag, a successful
execution yields its value. -/
def runTool (reg : List Tool) (toolName : String) (args : List (String × Json)) : Json :=
  match registryGet reg toolName with
  | none => Json.obj [("error", Json.str ("Tool \x27" ++ toolName ++ "\x27 not found"))]
  | some t =>
    match t.execute args with
    | .ok v => v
    | .error e => Json.obj [("error", Json.str e.fst), ("type", Json.str e.snd)]

/-- Model of the `while iterations < MAX_TOOL_ITERATIONS` loop of
`LLMService.chat` (llm_service.py lines 137-227). The first component is the
loop result; the second instruments the run with the list of conversations
passed to the backend, in call order (the source sends `messages` to
`provider.chat` at the top of each iteration). The backend is a function of
the 1-based call index and the conversation. A reply whose parse raises, a
truthy non-dict directive, a non-string tool name or non-dict arguments all
escape to the outer exception handler and are `LoopErr.unexpected`. -/
def chatLoop (reg : List Tool) (backend : Nat → List ChatMessage → ProviderReply)
    (provName modelName : String) :
    Nat → Nat → List ChatMessage → List ToolCallInfo → Option Json →
    Except LoopErr ChatResponse × List (List ChatMessage)
  | 0, iters, _, recs, _ => (.error (.maxIter iters recs.length), [])
  | fuel + 1, iters, msgs, recs, _ =>
    let reply := backend (iters + 1) msgs
    match parse_tool_call_from_response reply.content with
    | .error e => (.error (.unexpected e.fst e.snd), [msgs])
    | .ok none =>
      (.ok { success := true
             message := { role := "assistant", content := reply.content }
             tool_calls_made := recs
             usage := reply.usage
             provider := provName
             model := modelName }, [msgs])
    | .ok (some tc) =>
      if tc.truthy = false then
        (.ok { success := true
               message := { role := "assistant", content := reply.content }
               tool_calls_made := recs
               usage := reply.usage
               provider := provName
               model := modelName }, [msgs])
      else
        match tc with
        | .obj kvs =>
          match pyGet kvs "name" with
          | some (.str toolName) =>
            match pyGetD kvs "arguments" (Json.obj []) with
            | .obj argList =>
              let result := runTool reg toolName argList
              let next := chatLoop reg backend provName modelName fuel (iters + 1)
                (msgs ++ [{ role := "assistant", content := reply.content },
                          { role := "user", content := format_tool_result toolName result }])
                (recs ++ [{ tool := toolName, arguments := argList, result := result }])
                reply.usage
              (next.fst, msgs :: next.snd)
            | _ =>
              (.error (.unexpected "argument of type after ** must be a mapping" "TypeError"),
               [msgs])
          | _ =>
            (.error (.unexpected "validation error for ToolCallInfo tool" "ValidationError"),
             [msgs])
        | _ =>
          (.error (.unexpected "object has no attribute \x27get\x27" "AttributeError"), [msgs])

/-- Model of `LLMService.chat` (llm_service.py lines 91-246): seed the
conversation, run the loop, and re-raise classified failures — budget
exhaustion as `MaxIterationsException`, everything unexpected wrapped into
`ProviderException("Chat service error: ...")` by the outer handler.
Provider/model resolution (`get_provider`, settings fallbacks) is external
configuration; the resolved backend and names are taken as parameters. The
`success=False` response after the outer `raise` statement (lines 238-246)
is unreachable and has no counterpart here. The second component is the
instrumented list of conversations passed to the backend. -/
def chatService (reg : List Tool) (backend : Nat → List ChatMessage → ProviderReply)
    (provName modelName : String) (userMsgs : List ChatMessage) :
    Except ChatError ChatResponse × List (List ChatMessage) :=
  let msgs := add_system_prompt_if_needed userMsgs reg
  let r := chatLoop reg backend provName modelName MAX_TOOL_ITERATIONS 0 msgs [] none
  (match r.fst with
   | .ok resp => .ok resp
   | .error (.maxIter iters toolCalls) =>
     .error (.maxIterations
       ("Maximum tool calling iterations (" ++ toString MAX_TOOL_ITERATIONS ++ ") reached")
       iters toolCalls)
   | .error (.unexpected m ty) => .error (.provider ("Chat service error: " ++ m) ty),
   r.snd)

/-- The error-shaped scrape result built for a failed target
(web_scraper.py lines 139-147 and 232-240): the target's URL, the failure
message, and empty content fields. -/
def scrapeErrorObj (url : String) (e : String) : Json :=
  Json.obj [("url", Json.str url), ("error", Json.str e), ("title", Json.str ""),
            ("content", Json.str ""), ("meta_description", Json.str ""),
            ("links", Json.arr []), ("images", Json.arr [])]

/-- Model of the try/except skeleton of `WebScraperService.scrape_url`
(web_scraper.py lines 56-147): the body (HTTP fetch and HTML extraction,
external collaborators) either produces a result page object or raises; any
raise is caught and folded into the error-shaped result carrying the URL. -/
def scrape_url_model (url : String) (body : Except String Json) : Json :=
  match body with
  | .ok v => v
  | .error e => scrapeErrorObj url e

/-- Model of the post-`gather` loop of `scrape_multiple_urls`
(web_scraper.py lines 229-242): the i-th slot of the output is the i-th
per-target outcome, an exception being replaced by the error-shaped result
for `urls[i]`. -/
def processResults (urls : List String) : Nat → List (Except String Json) → List Json
  | _, [] => []
  | i, r :: rest =>
    (match r with
     | .error e => scrapeErrorObj (urls.getD i "") e
     | .ok v => v) :: processResults urls (i + 1) rest

/-- Scheduling state of one per-target task of `scrape_multiple_urls`:
not yet admitted by the semaphore, running inside `scrape_url`, or done. -/
inductive TStat where
  | waiting : TStat
  | running : TStat
  | done : TStat
deriving DecidableEq

/-- Global state of a `scrape_multiple_urls` run over `n` targets: the
semaphore counter and, per task, its scheduling status and (when finished)
its recorded outcome. -/
structure ScrapeState (n : Nat) where
  sem : Nat
  status : Fin n → TStat
  results : Fin n → Option (Except String Json)

/-- Initial state: semaphore at the concurrency cap, all tasks waiting, no
results recorded. -/
def scrapeInit (n cap : Nat) : ScrapeState n :=
  { sem := cap, status := fun _ => .waiting, results := fun _ => none }

/-- Interleaving semantics of the semaphore-bounded fan-out of
`scrape_multiple_urls` (web_scraper.py lines 219-226), with
`asyncio.Semaphore`/`asyncio.gather` modelled by their documented behaviour:
a waiting task may start only when the semaphore is positive (acquire
decrements it); a running task may finish at any time, releasing the
semaphore and recording its outcome `out i` into its own slot. The scheduler
chooses `i` freely, so reachability quantifies over every completion order. -/
inductive ScrapeStep (n : Nat) (out : Fin n → Except String Json) :
    ScrapeState n → ScrapeState n → Prop where
  | start (s : ScrapeState n) (i : Fin n) :
      s.status i = .waiting → 0 < s.sem →
      ScrapeStep n out s
        { sem := s.sem - 1, status := Function.update s.status i .running,
          results := s.results }
  | finish (s : ScrapeState n) (i : Fin n) :
      s.status i = .running →
      ScrapeStep n out s
        { sem := s.sem + 1, status := Function.update s.status i .done,
          results := Function.update s.results i (some (out i)) }

/-- Reachability from the initial state under any interleaving. -/
def scrapeReach (n cap : Nat) (out : Fin n → Except String Json) (s : ScrapeState n) : Prop :=
  Relation.ReflTransGen (ScrapeStep n out) (scrapeInit n cap) s

/-- Number of tasks simultaneously in flight. -/
def runningCount {n : Nat} (s : ScrapeState n) : Nat :=
  ∑ i : Fin n, (if s.status i = TStat.running then 1 else 0)

/-- The per-slot result list gathered at the end of a run, in target order
(the order `asyncio.gather` reports results, independent of completion
order). -/
def finalResults {n : Nat} (s : ScrapeState n) : List (Except String Json) :=
  (List.finRange n).map (fun i => (s.results i).getD (.error ""))

/-- The loop constructs a successful response only with `success := true`
(llm_service.py lines 162-169 are the only reachable `ChatResponse(...)`
construction). -/
theorem chatLoop_ok_success (reg : List Tool) (backend : Nat → List ChatMessage → ProviderReply)
    (pn mn : String) :
    ∀ fuel iters msgs recs usage r,
      (chatLoop reg backend pn mn fuel iters msgs recs usage).fst = .ok r → r.success = true := by
  intro fuel
  induction fuel with
  | zero =>
    intro iters msgs recs usage r h
    simp [chatLoop] at h
  | succ n ih =>
    intro iters msgs recs usage r h
    simp only [chatLoop] at h
    split at h
    · simp at h
    · simp only [Prod.fst] at h
      cases h
      rfl
    · split at h
      · simp only [Prod.fst] at h
        cases h
        rfl
      · split at h
        · split at h
          · split at h
            · simp only [Prod.fst] at h
              exact ih _ _ _ _ _ h
            · simp at h
          · simp at h
        · simp at h

/-- One loop iteration whose reply carries a full directive appends the
assistant message and the serialized tool result (as a user message), records
the invocation, and then continues as the loop with one less unit of budget. -/
theorem chatLoop_step (reg : List Tool) (backend : Nat → List ChatMessage → ProviderReply)
    (pn mn : String) (fuel iters : Nat) (msgs : List ChatMessage)
    (recs : List ToolCallInfo) (usage : Option Json) (kvs : List (String × Json))
    (toolName : String) (argList : List (String × Json))
    (hp : parse_tool_call_from_response (backend (iters + 1) msgs).content =
      .ok (some (Json.obj kvs)))
    (ht : Json.truthy (Json.obj kvs) = true)
    (hn : pyGet kvs "name" = some (Json.str toolName))
    (ha : pyGetD kvs "arguments" (Json.obj []) = Json.obj argList) :
    chatLoop reg backend pn mn (fuel + 1) iters msgs recs usage =
      ((chatLoop reg backend pn mn fuel (iters + 1)
          (msgs ++ [{ role := "assistant", content := (backend (iters + 1) msgs).content },
                    { role := "user",
                      content := format_tool_result toolName (runTool reg toolName argList) }])
          (recs ++ [{ tool := toolName, arguments := argList,
                      result := runTool reg toolName argList }])
          (backend (iters + 1) msgs).usage).fst,
       msgs :: (chatLoop reg backend pn mn fuel (iters + 1)
          (msgs ++ [{ role := "assistant", content := (backend (iters + 1) msgs).content },
                    { role := "user",
                      content := format_tool_result toolName (runTool reg toolName argList) }])
          (recs ++ [{ tool := toolName, arguments := argList,
                      result := runTool reg toolName argList }])
          (backend (iters + 1) msgs).usage).snd) := by
  simp only [chatLoop, hp, ht, hn, ha]
  simp

/-- A reply whose content parses to a full directive: some truthy
`tool_call` object with a string `name` and an object `arguments`. -/
def goodDirective (s : String) : Bool :=
  match parse_tool_call_from_response s with
  | .ok (some (Json.obj kvs)) =>
    Json.truthy (Json.obj kvs) &&
    (match pyGet kvs "name" with | some (Json.str _) => true | _ => false) &&
    (match pyGetD kvs "arguments" (Json.obj []) with | Json.obj _ => true | _ => false)
  | _ => false

/-- When every backend reply carries a directive, the loop spends its whole
budget, records one tool call per iteration, calls the backend once per
iteration, and ends in the budget-exceeded error carrying the iteration and
tool-call counts. -/
theorem chatLoop_all_directives (reg : List Tool)
    (backend : Nat → List ChatMessage → ProviderReply) (pn mn : String)
    (hgood : ∀ k m, goodDirective (backend k m).content = true) :
    ∀ fuel iters msgs recs usage,
      (chatLoop reg backend pn mn fuel iters msgs recs usage).fst =
        .error (.maxIter (iters + fuel) (recs.length + fuel)) ∧
      (chatLoop reg backend pn mn fuel iters msgs recs usage).snd.length = fuel := by
  intro fuel
  induction fuel with
  | zero =>
    intro iters msgs recs usage
    simp [chatLoop]
  | succ n ih =>
    intro iters msgs recs usage
    have hg := hgood (iters + 1) msgs
    unfold goodDirective at hg
    split at hg
    case _ kvs heq =>
      simp only [Bool.and_eq_true] at hg
      obtain ⟨⟨ht, hn⟩, ha⟩ := hg
      have hn' : ∃ tn, pyGet kvs "name" = some (Json.str tn) := by
        revert hn
        split
        · rename_i tn _
          exact fun _ => ⟨tn, by assumption⟩
        · intro h
          exact absurd h (by simp)
      have ha' : ∃ al, pyGetD kvs "arguments" (Json.obj []) = Json.obj al := by
        revert ha
        split
        · rename_i al _
          exact fun _ => ⟨al, by assumption⟩
        · intro h
          exact absurd h (by simp)
      obtain ⟨tn, hn2⟩ := hn'
      obtain ⟨al, ha2⟩ := ha'
      rw [chatLoop_step reg backend pn mn n iters msgs recs usage kvs tn al heq ht hn2 ha2]
      have hrec := ih (iters + 1)
        (msgs ++ [{ role := "assistant", content := (backend (iters + 1) msgs).content },
                  { role := "user",
                    content := format_tool_result tn (runTool reg tn al) }])
        (recs ++ [{ tool := tn, arguments := al, result := runTool reg tn al }])
        (backend (iters + 1) msgs).usage
      constructor
      · rw [hrec.1]
        have h1 : iters + 1 + n = iters + (n + 1) := by omega
        have h2 : (recs ++ [({ tool := tn, arguments := al, result := runTool reg tn al } : ToolCallInfo)]).length + n = recs.length + (n + 1) := by
          simp
          omega
        rw [h1, h2]
      · simp only [List.length_cons, hrec.2]
    all_goals exact absurd hg (by simp)

/-- Every conversation the loop passes to the backend extends the
conversation the loop started from: messages are only appended. -/
theorem chatLoop_trace_prefix (reg : List Tool)
    (backend : Nat → List ChatMessage → ProviderReply) (pn mn : String) :
    ∀ fuel iters msgs recs usage c,
      c ∈ (chatLoop reg backend pn mn fuel iters msgs recs usage).snd → msgs <+: c := by
  intro fuel
  induction fuel with
  | zero =>
    intro iters msgs recs usage c hc
    simp [chatLoop] at hc
  | succ n ih =>
    intro iters msgs recs usage c hc
    simp only [chatLoop] at hc
    split at hc
    · simp at hc
      subst hc
      exact List.prefix_refl _
    · simp at hc
      subst hc
      exact List.prefix_refl _
    · split at hc
      · simp at hc
        subst hc
        exact List.prefix_refl _
      · split at hc
        · split at hc
          · split at hc
            · simp only [List.mem_cons] at hc
              rcases hc with hc | hc
              · subst hc
                exact List.prefix_refl _
              · exact List.IsPrefix.trans (List.prefix_append _ _) (ih _ _ _ _ _ hc)
            · simp at hc
              subst hc
              exact List.prefix_refl _
          · simp at hc
            subst hc
            exact List.prefix_refl _
        · simp at hc
          subst hc
          exact List.prefix_refl _

/-- The directive reply used by the concrete scenarios: a bare JSON document
requesting `calculator` on `"2+2"`. -/
def calcDirective : String :=
  "\x7b\"tool_call\": \x7b\"name\": \"calculator\", \"arguments\": \x7b\"expression\": \"2+2\"\x7d\x7d\x7d"

/-- Backend stub of the spec's first scenario: first a calculator directive,
then the plain text final answer. -/
def c1Backend : Nat → List ChatMessage → ProviderReply :=
  fun k _ =>
    if k = 1 then { content := calcDirective, usage := some (Json.obj [("total_tokens", Json.num 11)]) }
    else { content := "The answer is 4", usage := some (Json.obj [("total_tokens", Json.num 22)]) }

/-- The caller-supplied conversation of the concrete scenarios. -/
def c1UserMsgs : List ChatMessage :=
  [{ role := "user", content := "Calculate 2+2" }]

/-- C1: a reply with no parsable tool-call directive ends the loop at once
with a successful response carrying that reply as assistant message, the
records accumulated so far, and the reply's usage snapshot; and in the
concrete calculator scenario the loop makes exactly 2 backend calls, records
exactly the one calculator invocation, succeeds, and the final message
contains "4". -/
theorem c1_no_directive_terminates :
    (∀ (reg : List Tool) (backend : Nat → List ChatMessage → ProviderReply)
       (pn mn : String) (fuel iters : Nat) (msgs : List ChatMessage)
       (recs : List ToolCallInfo) (usage : Option Json),
      parse_tool_call_from_response (backend (iters + 1) msgs).content = .ok none →
      chatLoop reg backend pn mn (fuel + 1) iters msgs recs usage =
        (.ok { success := true
               message := { role := "assistant", content := (backend (iters + 1) msgs).content }
               tool_calls_made := recs
               usage := (backend (iters + 1) msgs).usage
               provider := pn
               model := mn }, [msgs])) ∧
    (chatService [calculator] c1Backend "ollama" "m" c1UserMsgs).fst =
      .ok { success := true
            message := { role := "assistant", content := "The answer is 4" }
            tool_calls_made := [{ tool := "calculator"
                                  arguments := [("expression", Json.str "2+2")]
                                  result := Json.obj [("result", Json.num 4),
                                                      ("expression", Json.str "2+2")] }]
            usage := some (Json.obj [("total_tokens", Json.num 22)])
            provider := "ollama"
            model := "m" } ∧
    (chatService [calculator] c1Backend "ollama" "m" c1UserMsgs).snd.length = 2 ∧
    hasSubStr "The answer is 4" "4" = true := by
  refine ⟨?_, by rfl, by rfl, by rfl⟩
  intro reg backend pn mn fuel iters msgs recs usage h
  simp only [chatLoop, h]

/-- Witness for C1: the general clause applied to a trivial text-only
backend. -/
theorem c1_no_directive_terminates_witness :
    chatLoop [] (fun _ _ => { content := "hello", usage := none }) "p" "m" 1 0 [] [] none =
      (.ok { success := true
             message := { role := "assistant", content := "hello" }
             tool_calls_made := []
             usage := none
             provider := "p"
             model := "m" }, [[]]) :=
  c1_no_directive_terminates.1 [] (fun _ _ => { content := "hello", usage := none })
    "p" "m" 0 0 [] [] none (by rfl)

/-- A capability whose execution always raises; used to exercise the
execution-failure path of the loop. -/
def failingTool : Tool :=
  { name := "boom"
    description := "always raises"
    parameters := []
    execute := fun _ => .error ("kaput", "RuntimeError") }

/-- Backend stub that requests an unregistered capability. -/
def c2Backend : Nat → List ChatMessage → ProviderReply :=
  fun _ _ =>
    { content := "\x7b\"tool_call\": \x7b\"name\": \"nosuch\", \"arguments\": \x7b\x7d\x7d\x7d"
      usage := none }

/-- C2: an unregistered capability or a raising execution never aborts the
request: the loop synthesizes the error-shaped result (with the failure-kind
tag for execution failures), records the invocation in order, appends the
formatted result as a user-role message, and continues the loop. -/
theorem c2_tool_failures_recovered :
    (∀ (reg : List Tool) (name : String) (args : List (String × Json)),
      registryGet reg name = none →
      runTool reg name args =
        Json.obj [("error", Json.str ("Tool \x27" ++ name ++ "\x27 not found"))]) ∧
    (∀ (reg : List Tool) (name : String) (args : List (String × Json)) (t : Tool)
       (m ty : String),
      registryGet reg name = some t → t.execute args = .error (m, ty) →
      runTool reg name args = Json.obj [("error", Json.str m), ("type", Json.str ty)]) ∧
    (∀ (reg : List Tool) (backend : Nat → List ChatMessage → ProviderReply)
       (pn mn : String) (fuel iters : Nat) (msgs : List ChatMessage)
       (recs : List ToolCallInfo) (usage : Option Json) (kvs : List (String × Json))
       (toolName : String) (argList : List (String × Json)),
      parse_tool_call_from_response (backend (iters + 1) msgs).content =
        .ok (some (Json.obj kvs)) →
      Json.truthy (Json.obj kvs) = true →
      pyGet kvs "name" = some (Json.str toolName) →
      pyGetD kvs "arguments" (Json.obj []) = Json.obj argList →
      chatLoop reg backend pn mn (fuel + 1) iters msgs recs usage =
        ((chatLoop reg backend pn mn fuel (iters + 1)
            (msgs ++ [{ role := "assistant", content := (backend (iters + 1) msgs).content },
                      { role := "user",
                        content := format_tool_result toolName (runTool reg toolName argList) }])
            (recs ++ [{ tool := toolName, arguments := argList,
                        result := runTool reg toolName argList }])
            (backend (iters + 1) msgs).usage).fst,
         msgs :: (chatLoop reg backend pn mn fuel (iters + 1)
            (msgs ++ [{ role := "assistant", content := (backend (iters + 1) msgs).content },
                      { role := "user",
                        content := format_tool_result toolName (runTool reg toolName argList) }])
            (recs ++ [{ tool := toolName, arguments := argList,
                        result := runTool reg toolName argList }])
            (backend (iters + 1) msgs).usage).snd)) := by
  refine ⟨?_, ?_, ?_⟩
  · intro reg name args h
    simp only [runTool, h]
  · intro reg name args t m ty h1 h2
    simp only [runTool, h1, h2]
  · intro reg backend pn mn fuel iters msgs recs usage kvs toolName argList hp ht hn ha
    exact chatLoop_step reg backend pn mn fuel iters msgs recs usage kvs toolName argList
      hp ht hn ha

/-- Witness for C2: the not-found result, the execution-failure result, and
one concrete continued iteration. -/
theorem c2_tool_failures_recovered_witness :
    runTool [] "nosuch" [] =
      Json.obj [("error", Json.str "Tool \x27nosuch\x27 not found")] ∧
    runTool [failingTool] "boom" [] =
      Json.obj [("error", Json.str "kaput"), ("type", Json.str "RuntimeError")] ∧
    chatLoop [] c2Backend "p" "m" 1 0 [] [] none =
      ((chatLoop [] c2Backend "p" "m" 0 1
          ([] ++ [{ role := "assistant", content := (c2Backend 1 []).content },
                  { role := "user",
                    content := format_tool_result "nosuch" (runTool [] "nosuch" []) }])
          ([] ++ [{ tool := "nosuch", arguments := [], result := runTool [] "nosuch" [] }])
          (c2Backend 1 []).usage).fst,
       [] :: (chatLoop [] c2Backend "p" "m" 0 1
          ([] ++ [{ role := "assistant", content := (c2Backend 1 []).content },
                  { role := "user",
                    content := format_tool_result "nosuch" (runTool [] "nosuch" []) }])
          ([] ++ [{ tool := "nosuch", arguments := [], result := runTool [] "nosuch" [] }])
          (c2Backend 1 []).usage).snd) :=
  ⟨c2_tool_failures_recovered.1 [] "nosuch" [] (by rfl),
   c2_tool_failures_recovered.2.1 [failingTool] "boom" [] failingTool "kaput" "RuntimeError"
     (by rfl) (by rfl),
   c2_tool_failures_recovered.2.2 [] c2Backend "p" "m" 0 0 [] [] none
     [("name", Json.str "nosuch"), ("arguments", Json.obj [])] "nosuch" []
     (by rfl) (by rfl) (by rfl) (by rfl)⟩

/-- C3: when every backend reply carries a directive, the request fails with
the distinct budget-exceeded classification after exactly the configured
maximum number of iterations (modelled from the spec as 10), carrying the
iteration count (equal to the maximum) and the number of tool calls made. -/
theorem c3_budget_exhausted (reg : List Tool)
    (backend : Nat → List ChatMessage → ProviderReply) (pn mn : String)
    (userMsgs : List ChatMessage)
    (hgood : ∀ k m, goodDirective (backend k m).content = true) :
    (chatService reg backend pn mn userMsgs).fst =
      .error (.maxIterations
        ("Maximum tool calling iterations (" ++ toString MAX_TOOL_ITERATIONS ++ ") reached")
        MAX_TOOL_ITERATIONS MAX_TOOL_ITERATIONS) ∧
    (chatService reg backend pn mn userMsgs).snd.length = MAX_TOOL_ITERATIONS := by
  have h := chatLoop_all_directives reg backend pn mn hgood MAX_TOOL_ITERATIONS 0
    (add_system_prompt_if_needed userMsgs reg) [] none
  constructor
  · simp only [chatService]
    rw [h.1]
    simp
  · simp only [chatService]
    exact h.2

/-- Backend stub that always returns a directive. -/
def c3Backend : Nat → List ChatMessage → ProviderReply :=
  fun _ _ => { content := calcDirective, usage := none }

/-- Witness for C3: ten iterations, then the budget-exceeded error with
counts 10 and 10. -/
theorem c3_budget_exhausted_witness :
    (chatService [] c3Backend "p" "m" []).fst =
      .error (.maxIterations
        ("Maximum tool calling iterations (" ++ toString MAX_TOOL_ITERATIONS ++ ") reached")
        MAX_TOOL_ITERATIONS MAX_TOOL_ITERATIONS) ∧
    (chatService [] c3Backend "p" "m" []).snd.length = MAX_TOOL_ITERATIONS :=
  c3_budget_exhausted [] c3Backend "p" "m" [] (fun _ _ => by rfl)

/-- C8: the loop prepends a system message exactly when none is present and
at least one capability is registered, keeping the caller's messages intact
as the suffix; and every conversation ever sent to the backend extends the
seeded conversation — messages are only appended, never edited or removed. -/
theorem c8_conversation_append_only :
    (∀ (msgs : List ChatMessage) (tools : List Tool),
      msgs.any (fun m => m.role == "system") = false → tools.isEmpty = false →
      add_system_prompt_if_needed msgs tools =
        { role := "system", content := build_system_prompt_with_tools tools } :: msgs) ∧
    (∀ (msgs : List ChatMessage) (tools : List Tool),
      msgs.any (fun m => m.role == "system") = true ∨ tools.isEmpty = true →
      add_system_prompt_if_needed msgs tools = msgs) ∧
    (∀ (reg : List Tool) (backend : Nat → List ChatMessage → ProviderReply)
       (pn mn : String) (userMsgs : List ChatMessage) (c : List ChatMessage),
      c ∈ (chatService reg backend pn mn userMsgs).snd →
      add_system_prompt_if_needed userMsgs reg <+: c) := by
  refine ⟨?_, ?_, ?_⟩
  · intro msgs tools h1 h2
    simp [add_system_prompt_if_needed, h1, h2]
  · intro msgs tools h
    rcases h with h | h
    · simp [add_system_prompt_if_needed, h]
    · simp [add_system_prompt_if_needed, h]
  · intro reg backend pn mn userMsgs c hc
    simp only [chatService] at hc
    exact chatLoop_trace_prefix reg backend pn mn MAX_TOOL_ITERATIONS 0
      (add_system_prompt_if_needed userMsgs reg) [] none c hc

/-- Witness for C8: the three clauses applied at concrete inputs. -/
theorem c8_conversation_append_only_witness :
    add_system_prompt_if_needed c1UserMsgs [calculator] =
      { role := "system", content := build_system_prompt_with_tools [calculator] } :: c1UserMsgs ∧
    add_system_prompt_if_needed [({ role := "system", content := "s" } : ChatMessage)] [calculator] =
      [({ role := "system", content := "s" } : ChatMessage)] ∧
    add_system_prompt_if_needed [] [] <+:
      ([] : List ChatMessage) :=
  ⟨c8_conversation_append_only.1 c1UserMsgs [calculator] (by rfl) (by rfl),
   c8_conversation_append_only.2.1 [({ role := "system", content := "s" } : ChatMessage)]
     [calculator] (Or.inl (by rfl)),
   c8_conversation_append_only.2.2 [] (fun _ _ => { content := "done", usage := none })
     "p" "m" [] [] (by decide)⟩

/-- C10: every response the chat service returns (rather than raising a
classified error) has `success = true`; the `success=False` construction in
the source is dead code behind a `raise`. -/
theorem c10_success_always_true (reg : List Tool)
    (backend : Nat → List ChatMessage → ProviderReply) (pn mn : String)
    (userMsgs : List ChatMessage) (r : ChatResponse)
    (h : (chatService reg backend pn mn userMsgs).fst = .ok r) : r.success = true := by
  simp only [chatService] at h
  cases hloop : (chatLoop reg backend pn mn MAX_TOOL_ITERATIONS 0
      (add_system_prompt_if_needed userMsgs reg) [] none).fst with
  | ok resp =>
    rw [hloop] at h
    simp at h
    cases h
    exact chatLoop_ok_success reg backend pn mn MAX_TOOL_ITERATIONS 0
      (add_system_prompt_if_needed userMsgs reg) [] none _ hloop
  | error e =>
    rw [hloop] at h
    cases e <;> simp at h

/-- Witness for C10: the concrete scenario's returned response has
`success = true`. -/
theorem c10_success_always_true_witness :
    ({ success := true
       message := { role := "assistant", content := "The answer is 4" }
       tool_calls_made := [{ tool := "calculator"
                             arguments := [("expression", Json.str "2+2")]
                             result := Json.obj [("result", Json.num 4),
                                                 ("expression", Json.str "2+2")] }]
       usage := some (Json.obj [("total_tokens", Json.num 22)])
       provider := "ollama"
       model := "m" } : ChatResponse).success = true :=
  c10_success_always_true [calculator] c1Backend "ollama" "m" c1UserMsgs _ (by rfl)

/-- Invariant of the fan-out transition system: the number of in-flight
tasks plus the semaphore's remaining permits is the cap, and a slot holds
exactly the recorded outcome of its own finished task. -/
def scrapeInv {n : Nat} (cap : Nat) (out : Fin n → Except String Json) (s : ScrapeState n) : Prop :=
  runningCount s + s.sem = cap ∧
  ∀ i, (s.status i = .done → s.results i = some (out i)) ∧
       (s.status i ≠ .done → s.results i = none)

/-- Balance equation for the indicator sum under a pointwise update. -/
theorem sum_status_update {n : Nat} (f : Fin n → TStat) (i : Fin n) (v : TStat) (t : TStat) :
    (∑ j : Fin n, (if Function.update f i v j = t then 1 else 0)) +
      (if f i = t then 1 else 0) =
    (∑ j : Fin n, (if f j = t then 1 else 0)) + (if v = t then 1 else 0) := by
  have h1 : (∑ j : Fin n, (if Function.update f i v j = t then (1 : Nat) else 0)) =
      (if Function.update f i v i = t then (1 : Nat) else 0) +
        ∑ j ∈ Finset.univ.erase i, (if Function.update f i v j = t then (1 : Nat) else 0) :=
    (Finset.add_sum_erase _ _ (Finset.mem_univ i)).symm
  have h2 : (∑ j : Fin n, (if f j = t then (1 : Nat) else 0)) =
      (if f i = t then (1 : Nat) else 0) +
        ∑ j ∈ Finset.univ.erase i, (if f j = t then (1 : Nat) else 0) :=
    (Finset.add_sum_erase _ _ (Finset.mem_univ i)).symm
  have h3 : (∑ j ∈ Finset.univ.erase i, (if Function.update f i v j = t then (1 : Nat) else 0)) =
      (∑ j ∈ Finset.univ.erase i, (if f j = t then (1 : Nat) else 0)) := by
    refine Finset.sum_congr rfl (fun j hj => ?_)
    rw [Function.update_noteq (Finset.ne_of_mem_erase hj)]
  rw [h1, h2, h3, Function.update_same]
  omega

/-- One scheduler step preserves the invariant. -/
theorem scrape_step_inv {n cap : Nat} {out : Fin n → Except String Json}
    {s1 s2 : ScrapeState n} (hstep : ScrapeStep n out s1 s2)
    (h : scrapeInv cap out s1) : scrapeInv cap out s2 := by
  obtain ⟨ihsum, ihres⟩ := h
  cases hstep with
  | start i hw hsem =>
    constructor
    · have hb := sum_status_update s1.status i TStat.running TStat.running
      rw [hw] at hb
      have e1 : (if TStat.waiting = TStat.running then (1 : Nat) else 0) = 0 := by decide
      have e2 : (if TStat.running = TStat.running then (1 : Nat) else 0) = 1 := by decide
      rw [e1, e2] at hb
      simp only [runningCount] at ihsum ⊢
      omega
    · intro j
      constructor
      · intro hd
        simp only [] at hd
        by_cases hji : j = i
        · subst hji
          rw [Function.update_same] at hd
          cases hd
        · rw [Function.update_noteq hji] at hd
          exact (ihres j).1 hd
      · intro hnd
        simp only [] at hnd ⊢
        by_cases hji : j = i
        · subst hji
          refine (ihres _).2 ?_
          rw [hw]
          intro hc
          cases hc
        · rw [Function.update_noteq hji] at hnd
          exact (ihres j).2 hnd
  | finish i hr =>
    constructor
    · have hb := sum_status_update s1.status i TStat.done TStat.running
      rw [hr] at hb
      have e1 : (if TStat.done = TStat.running then (1 : Nat) else 0) = 0 := by decide
      have e2 : (if TStat.running = TStat.running then (1 : Nat) else 0) = 1 := by decide
      rw [e1, e2] at hb
      simp only [runningCount] at ihsum ⊢
      omega
    · intro j
      constructor
      · intro hd
        simp only [] at hd ⊢
        by_cases hji : j = i
        · subst hji
          rw [Function.update_same]
        · rw [Function.update_noteq hji] at hd
          rw [Function.update_noteq hji]
          exact (ihres j).1 hd
      · intro hnd
        simp only [] at hnd ⊢
        by_cases hji : j = i
        · subst hji
          rw [Function.update_same] at hnd
          exact absurd rfl hnd
        · rw [Function.update_noteq hji] at hnd
          rw [Function.update_noteq hji]
          exact (ihres j).2 hnd

/-- The invariant holds in every reachable state of the fan-out run. -/
theorem scrape_reach_inv {n : Nat} (cap : Nat) (out : Fin n → Except String Json)
    (s : ScrapeState n) (h : scrapeReach n cap out s) : scrapeInv cap out s := by
  induction h with
  | refl =>
    constructor
    · simp [runningCount, scrapeInit]
    · intro i
      constructor
      · intro hd
        simp [scrapeInit] at hd
      · intro _
        rfl
  | tail hab hbc ih =>
    exact scrape_step_inv hbc ih

/-- The post-gather conversion preserves the number of slots. -/
theorem processResults_length (urls : List String) :
    ∀ (rs : List (Except String Json)) (i : Nat),
      (processResults urls i rs).length = rs.length := by
  intro rs
  induction rs with
  | nil => intro i; rfl
  | cons r tl ih => intro i; simp [processResults, ih]

/-- Slot `k` of the post-gather conversion is slot `k` of the gathered
outcomes, with an exception replaced by the error-shaped result for the
`(i+k)`-th URL. -/
theorem processResults_getD (urls : List String) :
    ∀ (rs : List (Except String Json)) (i k : Nat), k < rs.length →
      (processResults urls i rs).getD k Json.null =
        (match rs.getD k (Except.error "") with
         | .ok v => v
         | .error e => scrapeErrorObj (urls.getD (i + k) "") e) := by
  intro rs
  induction rs with
  | nil =>
    intro i k hk
    simp at hk
  | cons r tl ih =>
    intro i k hk
    cases k with
    | zero =>
      simp only [processResults, List.getD_cons_zero]
      cases r <;> simp
    | succ m =>
      simp only [processResults, List.getD_cons_succ]
      have := ih (i + 1) m (by simpa using hk)
      rw [this]
      have harith : i + 1 + m = i + (m + 1) := by omega
      rw [harith]

/-- In a completed run every gathered slot is the recorded outcome of its
own task, regardless of the schedule. -/
theorem finalResults_of_done {n : Nat} {out : Fin n → Except String Json}
    {s : ScrapeState n} (hres : ∀ i, s.results i = some (out i)) :
    finalResults s = (List.finRange n).map (fun i => out i) := by
  unfold finalResults
  refine List.map_congr_left (fun i _ => ?_)
  rw [hres i]
  rfl

/-- C9: in every state reachable under any interleaving of a
`scrape_multiple_urls` run, at most `cap` per-target operations are
simultaneously in flight — true admission control, not launch-all-then-wait. -/
theorem c9_bounded_concurrency (n cap : Nat) (out : Fin n → Except String Json)
    (s : ScrapeState n) (h : scrapeReach n cap out s) : runningCount s ≤ cap := by
  obtain ⟨hsum, _⟩ := scrape_reach_inv cap out s h
  omega

/-- Witness for C9: the initial state of a 3-target run with cap 1. -/
theorem c9_bounded_concurrency_witness :
    runningCount (scrapeInit 3 1) ≤ 1 :=
  c9_bounded_concurrency 3 1 (fun _ => .ok Json.null) (scrapeInit 3 1)
    Relation.ReflTransGen.refl

/-- C6: in every completed run of the multi-target executor, the output has
exactly one slot per target, the i-th slot holds the i-th target's result
regardless of completion order, a failed target appears as the error-shaped
result carrying that target's URL in its own slot, and `scrape_url` itself
folds an internal failure into the same error shape. -/
theorem c6_slot_isolation (urls : List String) (cap : Nat)
    (out : Fin urls.length → Except String Json) (s : ScrapeState urls.length)
    (h : scrapeReach urls.length cap out s) (hdone : ∀ i, s.status i = .done) :
    (processResults urls 0 (finalResults s)).length = urls.length ∧
    (∀ i : Fin urls.length,
      (processResults urls 0 (finalResults s)).getD i.val Json.null =
        (match out i with
         | .ok v => v
         | .error e => scrapeErrorObj (urls.get i) e)) ∧
    (∀ url e, scrape_url_model url (.error e) = scrapeErrorObj url e) := by
  have inv := scrape_reach_inv cap out s h
  have hres : ∀ i, s.results i = some (out i) := fun i => (inv.2 i).1 (hdone i)
  have hfr := finalResults_of_done hres
  refine ⟨?_, ?_, fun url e => rfl⟩
  · rw [hfr, processResults_length, List.length_map, List.length_finRange]
  · intro i
    rw [hfr]
    have hlen : i.val < ((List.finRange urls.length).map (fun j => out j)).length := by
      simp [List.length_finRange, i.isLt]
    rw [processResults_getD urls _ 0 i.val (by simp)]
    have hget : ((List.finRange urls.length).map (fun j => out j)).getD i.val
        (Except.error "") = out i := by
      rw [List.getD_eq_getElem _ _ hlen]
      simp [List.getElem_map, List.getElem_finRange]
    rw [hget]
    have hurl : urls.getD (0 + i.val) "" = urls.get i := by
      rw [Nat.zero_add, List.getD_eq_getElem _ _ i.isLt]
      simp [List.get_eq_getElem]
    rw [hurl]

/-- Per-target outcomes of the witness run: target 0 succeeds, target 1
raises. -/
def c6Out : Fin 2 → Except String Json :=
  fun i => if i.val = 0 then .ok (Json.str "A") else .error "boom"

/-- Witness run, step 1: task 0 admitted. -/
def c6State1 : ScrapeState 2 :=
  { sem := (scrapeInit 2 1).sem - 1
    status := Function.update (scrapeInit 2 1).status 0 .running
    results := (scrapeInit 2 1).results }

/-- Witness run, step 2: task 0 finished. -/
def c6State2 : ScrapeState 2 :=
  { sem := c6State1.sem + 1
    status := Function.update c6State1.status 0 .done
    results := Function.update c6State1.results 0 (some (c6Out 0)) }

/-- Witness run, step 3: task 1 admitted. -/
def c6State3 : ScrapeState 2 :=
  { sem := c6State2.sem - 1
    status := Function.update c6State2.status 1 .running
    results := c6State2.results }

/-- Witness run, step 4: task 1 finished; the run is complete. -/
def c6State4 : ScrapeState 2 :=
  { sem := c6State3.sem + 1
    status := Function.update c6State3.status 1 .done
    results := Function.update c6State3.results 1 (some (c6Out 1)) }

/-- Witness for C6: a completed two-target run (cap 1) where target 1
failed; both slots are correct and in order. -/
theorem c6_slot_isolation_witness :
    (processResults ["a", "b"] 0 (finalResults c6State4)).length = ["a", "b"].length ∧
    (∀ i : Fin (["a", "b"] : List String).length,
      (processResults ["a", "b"] 0 (finalResults c6State4)).getD i.val Json.null =
        (match c6Out i with
         | .ok v => v
         | .error e => scrapeErrorObj ((["a", "b"] : List String).get i) e)) ∧
    (∀ url e, scrape_url_model url (.error e) = scrapeErrorObj url e) :=
  c6_slot_isolation ["a", "b"] 1 c6Out c6State4
    (Relation.ReflTransGen.tail
      (Relation.ReflTransGen.tail
        (Relation.ReflTransGen.tail
          (Relation.ReflTransGen.tail Relation.ReflTransGen.refl
            (ScrapeStep.start (scrapeInit 2 1) 0 (by decide) (by decide)))
          (ScrapeStep.finish c6State1 0 (by decide)))
        (ScrapeStep.start c6State2 1 (by decide) (by decide)))
      (ScrapeStep.finish c6State3 1 (by decide)))
    (by decide)

/-- The rendered text contributed by one tool: its three header lines and one
line per parameter, each line newline-terminated. -/
def tool_block (t : Tool) : String :=
  concatAll ((tool_lines t).map (fun l => l ++ "\n"))

/-- Concatenation distributes over list append. -/
theorem concatAll_append (A B : List String) :
    concatAll (A ++ B) = concatAll A ++ concatAll B := by
  induction A with
  | nil => simp [concatAll]
  | cons x tl ih => simp [concatAll, ih, String.append_assoc]

/-- Splitting a `"\n".join` at a nonempty tail: the head lines each get a
trailing newline. -/
theorem joinLines_append (A B : List String) (hB : B ≠ []) :
    joinLines (A ++ B) = concatAll (A.map (fun l => l ++ "\n")) ++ joinLines B := by
  induction A with
  | nil => simp [concatAll]
  | cons x tl ih =>
    have hne : tl ++ B ≠ [] := by
      cases tl <;> simp [hB]
    have hstep : joinLines (x :: (tl ++ B)) = x ++ "\n" ++ joinLines (tl ++ B) := by
      cases htl : tl ++ B with
      | nil => exact absurd htl hne
      | cons y rest => rfl
    simp only [List.cons_append, hstep, ih, List.map_cons, concatAll]
    simp [String.append_assoc]

/-- Newline-joining a flattened list of line groups concatenates the
newline-joined groups. -/
theorem concatAll_flatten_map (f : String → String) (L : List (List String)) :
    concatAll ((L.flatten).map f) = concatAll (L.map (fun xs => concatAll (xs.map f))) := by
  induction L with
  | nil => rfl
  | cons xs rest ih =>
    simp only [List.flatten_cons, List.map_append, List.map_cons, concatAll_append, ih, concatAll]

/-- The tools prompt decomposes into the fixed header, one block per tool in
list order, and the fixed footer. -/
theorem build_tools_prompt_decomp (tools : List Tool) (h : tools.isEmpty = false) :
    build_tools_prompt tools =
      concatAll (tools_prompt_header.map (fun l => l ++ "\n")) ++
      (concatAll (tools.map tool_block) ++ joinLines tools_prompt_footer) := by
  unfold build_tools_prompt
  rw [h]
  simp only [Bool.false_eq_true, if_false]
  rw [List.append_assoc]
  rw [joinLines_append tools_prompt_header ((tools.map tool_lines).flatten ++ tools_prompt_footer)
    (by cases hfl : (tools.map tool_lines).flatten <;> simp [tools_prompt_footer])]
  rw [joinLines_append ((tools.map tool_lines).flatten) tools_prompt_footer
    (by simp [tools_prompt_footer])]
  rw [concatAll_flatten_map]
  simp only [List.map_map]
  rfl

/-- A tool's block is its name line, description line, parameter header, and
one line per declared parameter in declaration order. -/
theorem tool_block_eq (t : Tool) :
    tool_block t =
      (("\n### " ++ t.name) ++ "\n") ++
      ((("Опис: " ++ t.description) ++ "\n") ++
      (("Параметри:" ++ "\n") ++
      concatAll (t.parameters.map (fun p => param_line p ++ "\n")))) := by
  unfold tool_block tool_lines
  rw [List.cons_append, List.cons_append, List.cons_append, List.nil_append]
  rw [List.map_cons, List.map_cons, List.map_cons, List.map_map]
  rfl

/-- C7: the rendered system prompt is a deterministic function of the
capability list: the empty list yields the bare persona preamble, a nonempty
list yields the preamble, the fixed header, one block per capability in list
order, and the fixed footer; each block lists the capability's name,
description and its parameters in declaration order, each parameter line
carrying name, type, required-ness and description. -/
theorem c7_prompt_deterministic :
    (build_tools_prompt [] = "" ∧
     build_system_prompt_with_tools [] = base_system_prompt) ∧
    (∀ tools : List Tool, tools.isEmpty = false →
      build_tools_prompt tools =
        concatAll (tools_prompt_header.map (fun l => l ++ "\n")) ++
        (concatAll (tools.map tool_block) ++ joinLines tools_prompt_footer) ∧
      build_system_prompt_with_tools tools =
        base_system_prompt ++ "\n" ++ build_tools_prompt tools) ∧
    (∀ t : Tool, tool_block t =
      (("\n### " ++ t.name) ++ "\n") ++
      ((("Опис: " ++ t.description) ++ "\n") ++
      (("Параметри:" ++ "\n") ++
      concatAll (t.parameters.map (fun p => param_line p ++ "\n"))))) ∧
    (∀ p : ToolParameter, param_line p =
      "  - " ++ p.name ++ " (" ++ p.type ++ ", " ++
        (if p.required then "обов\x27язковий" else "опціональний") ++ "): " ++ p.description) := by
  refine ⟨⟨rfl, rfl⟩, ?_, tool_block_eq, fun p => rfl⟩
  intro tools h
  refine ⟨build_tools_prompt_decomp tools h, ?_⟩
  unfold build_system_prompt_with_tools
  rw [h]
  simp only [Bool.false_eq_true, if_false]

/-- Witness for C7: the decomposition clauses applied to the calculator
registry. -/
theorem c7_prompt_deterministic_witness :
    (build_tools_prompt [calculator] =
      concatAll (tools_prompt_header.map (fun l => l ++ "\n")) ++
      (concatAll ([calculator].map tool_block) ++ joinLines tools_prompt_footer) ∧
     build_system_prompt_with_tools [calculator] =
       base_system_prompt ++ "\n" ++ build_tools_prompt [calculator]) ∧
    tool_block calculator =
      (("\n### " ++ calculator.name) ++ "\n") ++
      ((("Опис: " ++ calculator.description) ++ "\n") ++
      (("Параметри:" ++ "\n") ++
      concatAll (calculator.parameters.map (fun p => param_line p ++ "\n")))) :=
  ⟨c7_prompt_deterministic.2.1 [calculator] (by rfl),
   c7_prompt_deterministic.2.2.1 calculator⟩

/-- Top-level JSON values on which the strategy-1 membership or subscript
raises `TypeError`: non-dict, non-safe tops. -/
def jsonBadTop : Json → Bool
  | .obj _ => false
  | .str t => hasSubStr t "tool_call"
  | .arr xs => xs.any (fun j => match j with | .str t => t = "tool_call" | _ => false)
  | _ => true

/-- A captured fenced block always starts with an opening brace. -/
theorem findBlockEnd_head :
    ∀ (cs : List Char) (acc b r : List Char), findBlockEnd acc cs = some (b, r) →
      ∃ t, b = '{' :: t := by
  intro cs
  induction cs with
  | nil =>
    intro acc b r h
    simp [findBlockEnd] at h
  | cons c rest ih =>
    intro acc b r h
    simp only [findBlockEnd] at h
    split at h
    · rw [Option.some.injEq, Prod.mk.injEq] at h
      exact ⟨_, h.1.symm⟩
    · exact ih _ _ _ h

/-- Every strategy-2 candidate starts with an opening brace. -/
theorem findBlocksAux_head :
    ∀ (fuel : Nat) (cs : List Char) (b : List Char), b ∈ findBlocksAux fuel cs →
      ∃ t, b = '{' :: t := by
  intro fuel
  induction fuel with
  | zero =>
    intro cs b h
    simp [findBlocksAux] at h
  | succ n ih =>
    intro cs b h
    cases cs with
    | nil => simp [findBlocksAux] at h
    | cons c rest =>
      simp only [findBlocksAux] at h
      split at h
      · split at h
        · split at h
          · rename_i block resume heq
            simp only [List.mem_cons] at h
            rcases h with h | h
            · subst h
              exact findBlockEnd_head _ _ _ _ heq
            · exact ih _ _ h
          · exact ih _ _ h
        · exact ih _ _ h
      · exact ih _ _ h

/-- An inline match always starts with an opening brace. -/
theorem inlineMatchAt_head :
    ∀ (cs m r : List Char), inlineMatchAt cs = some (m, r) → ∃ t, m = '{' :: t := by
  intro cs m r h
  simp only [inlineMatchAt] at h
  repeat' split at h
  all_goals first
    | (rw [Option.some.injEq, Prod.mk.injEq] at h; exact ⟨_, h.1.symm⟩)
    | simp at h

/-- Every strategy-3 candidate starts with an opening brace. -/
theorem findInlineAux_head :
    ∀ (fuel : Nat) (cs : List Char) (b : List Char), b ∈ findInlineAux fuel cs →
      ∃ t, b = '{' :: t := by
  intro fuel
  induction fuel with
  | zero =>
    intro cs b h
    simp [findInlineAux] at h
  | succ n ih =>
    intro cs b h
    cases cs with
    | nil => simp [findInlineAux] at h
    | cons c rest =>
      simp only [findInlineAux] at h
      split at h
      · split at h
        · rename_i m resume heq
          simp only [List.mem_cons] at h
          rcases h with h | h
          · subst h
            exact inlineMatchAt_head _ _ _ heq
          · exact ih _ _ h
        · exact ih _ _ h
      · exact ih _ _ h

/-- Strategy-2 candidates, as strings, start with an opening brace. -/
theorem extractJsonBlocks_head (s : String) :
    ∀ c ∈ extractJsonBlocks s, ∃ t, c.toList = '{' :: t := by
  intro c hc
  unfold extractJsonBlocks at hc
  rw [List.mem_map] at hc
  obtain ⟨b, hb, hbc⟩ := hc
  obtain ⟨t, ht⟩ := findBlocksAux_head _ _ b hb
  exact ⟨t, by rw [← hbc, ht]; rfl⟩

/-- Strategy-3 candidates, as strings, start with an opening brace. -/
theorem extractInlineObjs_head (s : String) :
    ∀ c ∈ extractInlineObjs s, ∃ t, c.toList = '{' :: t := by
  intro c hc
  unfold extractInlineObjs at hc
  rw [List.mem_map] at hc
  obtain ⟨b, hb, hbc⟩ := hc
  obtain ⟨t, ht⟩ := findInlineAux_head _ _ b hb
  exact ⟨t, by rw [← hbc, ht]; rfl⟩

set_option maxHeartbeats 1000000 in
/-- A JSON document that starts with an opening brace parses, if at all, to
an object — so candidate fragments can never make the membership test
raise. -/
theorem loads_brace_obj (t : List Char) (v : Json) (h : loads ('{' :: t) = some v) :
    ∃ kvs, v = Json.obj kvs := by
  unfold loads at h
  have hs : skipWs ('{' :: t) = '{' :: t := by
    simp [skipWs, List.dropWhile_cons, isJsonWs]
  rw [hs] at h
  simp only [parseValue] at h
  split at h
  · rename_i v1 r1 heq
    split at h
    · cases h
      split at heq
      · rw [Option.some.injEq, Prod.mk.injEq] at heq
        exact ⟨[], heq.1.symm⟩
      · rw [Option.map_eq_some'] at heq
        obtain ⟨p, hp, hfp⟩ := heq
        rw [Prod.mk.injEq] at hfp
        exact ⟨p.fst, hfp.1.symm⟩
    · simp at h
  · simp at h

/-- Candidate iteration never raises: every candidate starts with a brace,
so a parsed candidate is a dict and the membership test is safe. -/
theorem tryCandidates_safe :
    ∀ (cands : List String), (∀ c ∈ cands, ∃ t, c.toList = '{' :: t) →
      ∀ e, tryCandidates cands ≠ .error e := by
  intro cands
  induction cands with
  | nil =>
    intro _ e h
    simp [tryCandidates] at h
  | cons cand rest ih =>
    intro hc e h
    simp only [tryCandidates] at h
    obtain ⟨t, ht⟩ := hc cand (List.mem_cons_self cand rest)
    cases hload : loadsStr cand with
    | none =>
      rw [hload] at h
      exact ih (fun c hm => hc c (List.mem_cons_of_mem _ hm)) e h
    | some v =>
      rw [hload] at h
      obtain ⟨kvs, hv⟩ := loads_brace_obj t v
        (by rw [show loads ('{' :: t) = loadsStr cand from by rw [← ht]; rfl]; exact hload)
      subst hv
      simp only [checkToolCall] at h
      cases hget : pyGet kvs "tool_call" with
      | none =>
        rw [hget] at h
        exact ih (fun c hm => hc c (List.mem_cons_of_mem _ hm)) e h
      | some x =>
        rw [hget] at h
        cases h

/-- Strategies 2 and 3 never raise. -/
theorem strategy23_safe (s : String) (e : PyErr) : strategy23 s ≠ .error e := by
  intro h
  unfold strategy23 at h
  cases hb : tryCandidates (extractJsonBlocks s) with
  | error e2 =>
    exact tryCandidates_safe _ (extractJsonBlocks_head s) e2 hb
  | ok o =>
    rw [hb] at h
    cases o with
    | some x => cases h
    | none => exact tryCandidates_safe _ (extractInlineObjs_head s) e h

/-- C4 (amended): parse raises only when the whole text is valid JSON whose
top level is not a dict (a number, boolean or null, a string containing
`tool_call`, or a list containing the string `tool_call`); a malformed
candidate fragment is skipped in favour of the next candidate; and a valid
top-level-object JSON without the `tool_call` key yields absent when the
fenced-block and inline scans produce no candidate. -/
theorem c4_corrected :
    (∀ (s : String) (e : PyErr), parse_tool_call_from_response s = .error e →
      ∃ v, loadsStr s = some v ∧ jsonBadTop v = true) ∧
    (∀ (cand : String) (rest : List String),
      loadsStr cand = none → tryCandidates (cand :: rest) = tryCandidates rest) ∧
    (∀ (s : String) (kvs : List (String × Json)),
      s ≠ "" → loadsStr s = some (Json.obj kvs) → pyGet kvs "tool_call" = none →
      extractJsonBlocks s = [] → extractInlineObjs s = [] →
      parse_tool_call_from_response s = .ok none) := by
  refine ⟨?_, ?_, ?_⟩
  · intro s e h
    unfold parse_tool_call_from_response at h
    split at h
    · cases h
    · cases hload : loadsStr s with
      | none =>
        rw [hload] at h
        simp only [checkToolCall] at h
        exact absurd h (strategy23_safe s e)
      | some v =>
        rw [hload] at h
        cases v with
        | obj kvs =>
          simp only [checkToolCall] at h
          cases hget : pyGet kvs "tool_call" with
          | some x =>
            rw [hget] at h
            exact absurd h (by intro hc; cases hc)
          | none =>
            rw [hget] at h
            exact absurd h (strategy23_safe s e)
        | str t2 =>
          simp only [checkToolCall] at h
          by_cases hsub : hasSubStr t2 "tool_call" = true
          · exact ⟨.str t2, rfl, by simpa [jsonBadTop] using hsub⟩
          · rw [if_neg hsub] at h
            exact absurd h (strategy23_safe s e)
        | arr xs =>
          simp only [checkToolCall] at h
          by_cases hany : xs.any (fun j => match j with | .str t => t = "tool_call" | _ => false) = true
          · exact ⟨.arr xs, rfl, by simpa [jsonBadTop] using hany⟩
          · rw [if_neg hany] at h
            exact absurd h (strategy23_safe s e)
        | num n => exact ⟨.num n, rfl, rfl⟩
        | bool b => exact ⟨.bool b, rfl, rfl⟩
        | null => exact ⟨.null, rfl, rfl⟩
  · intro cand rest hload
    simp only [tryCandidates, hload]
  · intro s kvs hne hload hget hblocks hinline
    unfold parse_tool_call_from_response
    rw [if_neg hne, hload]
    simp only [checkToolCall, hget]
    unfold strategy23
    rw [hblocks, hinline]
    rfl

/-- Counterexample to C4 as stated: the input `"5"` is valid JSON, yet
`parse_tool_call_from_response` raises `TypeError` (the uncaught membership
test on an `int`) instead of returning absent — the function is not total. -/
theorem c4_counterexample :
    parse_tool_call_from_response "5" =
      .error ("argument of type \x27int\x27 is not iterable", "TypeError") ∧
    loadsStr "5" = some (Json.num 5) := by
  exact ⟨rfl, rfl⟩

/-- Witness for the amended C4: each clause applied at a concrete input. -/
theorem c4_corrected_witness :
    (∃ v, loadsStr "true" = some v ∧ jsonBadTop v = true) ∧
    tryCandidates ["\x7bbad" , "\x7b\"tool_call\": 1\x7d"] =
      tryCandidates ["\x7b\"tool_call\": 1\x7d"] ∧
    parse_tool_call_from_response "\x7b\"a\": 1\x7d" = .ok none :=
  ⟨c4_corrected.1 "true" ("argument of type \x27bool\x27 is not iterable", "TypeError") (by rfl),
   c4_corrected.2.1 "\x7bbad" ["\x7b\"tool_call\": 1\x7d"] (by rfl),
   c4_corrected.2.2 "\x7b\"a\": 1\x7d" [("a", Json.num 1)] (by decide) (by rfl) (by rfl)
     (by rfl) (by rfl)⟩

def plainChar (c : Char) : Bool :=
  decide (32 ≤ c.toNat) && !(c = '"') && !(c = '\\') && !(c = '{') && !(c = '}') && !(c = '`')

def plainStr (s : String) : Bool :=
  s.toList.all plainChar

theorem plainChar_facts (c : Char) (h : plainChar c = true) :
    c ≠ '"' ∧ c ≠ '\\' ∧ c ≠ '{' ∧ c ≠ '}' ∧ c ≠ '`' ∧ c ≠ '\n' ∧ c ≠ '\t' ∧ c ≠ '\r' := by
  simp only [plainChar, Bool.and_eq_true, decide_eq_true_eq, Bool.not_eq_true',
    decide_eq_false_iff_not] at h
  obtain ⟨⟨⟨⟨⟨h32, hq⟩, hb⟩, hlb⟩, hrb⟩, hbt⟩ := h
  refine ⟨hq, hb, hlb, hrb, hbt, ?_, ?_, ?_⟩
  · intro hc; subst hc; simp at h32
  · intro hc; subst hc; simp at h32
  · intro hc; subst hc; simp at h32

theorem parseStrChars_quote (rest : List Char) :
    parseStrChars ('"' :: rest) = some ([], rest) := by
  unfold parseStrChars
  simp

theorem parseStrChars_plain_head (c : Char) (rest : List Char) (h1 : c ≠ '"') (h2 : c ≠ '\\') :
    parseStrChars (c :: rest) = (parseStrChars rest).map (fun p => (c :: p.fst, p.snd)) := by
  conv_lhs => unfold parseStrChars
  rw [if_neg h1, if_neg h2]

theorem escChars_plain : ∀ (cs : List Char), cs.all plainChar = true → escChars cs = cs := by
  intro cs
  induction cs with
  | nil => intro _; rfl
  | cons c tl ih =>
    intro h
    rw [List.all_cons, Bool.and_eq_true] at h
    obtain ⟨hq, hb, _, _, _, hn, ht, hr⟩ := plainChar_facts c h.1
    unfold escChars escChar
    rw [if_neg hq, if_neg hb, if_neg hn, if_neg ht, if_neg hr]
    rw [ih h.2]
    rfl

theorem parseStr_plain : ∀ (p : List Char) (rest : List Char), p.all plainChar = true →
    parseStrChars (p ++ '"' :: rest) = some (p, rest) := by
  intro p
  induction p with
  | nil =>
    intro rest _
    rw [List.nil_append, parseStrChars_quote]
  | cons c tl ih =>
    intro rest h
    rw [List.all_cons, Bool.and_eq_true] at h
    obtain ⟨hq, hb, _⟩ := plainChar_facts c h.1
    rw [List.cons_append, parseStrChars_plain_head c _ hq hb, ih rest h.2]
    rfl

theorem string_mk_toList (s : String) : String.mk s.toList = s := by
  cases s
  rfl

theorem tdc_shift : ∀ (fuel n : Nat) (ds : List Char),
    Nat.toDigitsCore 10 fuel n ds = Nat.toDigitsCore 10 fuel n [] ++ ds := by
  intro fuel
  induction fuel with
  | zero => intro n ds; rfl
  | succ fuel ih =>
    intro n ds
    rw [show Nat.toDigitsCore 10 (fuel + 1) n ds =
        if n / 10 = 0 then Nat.digitChar (n % 10) :: ds
        else Nat.toDigitsCore 10 fuel (n / 10) (Nat.digitChar (n % 10) :: ds) from rfl]
    rw [show Nat.toDigitsCore 10 (fuel + 1) n [] =
        if n / 10 = 0 then [Nat.digitChar (n % 10)]
        else Nat.toDigitsCore 10 fuel (n / 10) [Nat.digitChar (n % 10)] from rfl]
    by_cases h : n / 10 = 0
    · rw [if_pos h, if_pos h]; rfl
    · rw [if_neg h, if_neg h]
      rw [ih (n / 10) (Nat.digitChar (n % 10) :: ds),
        ih (n / 10) [Nat.digitChar (n % 10)]]
      simp

theorem digitChar_facts (m : Nat) (h : m < 10) :
    Char.isDigit (Nat.digitChar m) = true ∧
    (Nat.digitChar m).toNat - '0'.toNat = m ∧
    (32 ≤ (Nat.digitChar m).toNat ∧ Nat.digitChar m ≠ '"' ∧ Nat.digitChar m ≠ '\\' ∧
      Nat.digitChar m ≠ '{' ∧ Nat.digitChar m ≠ '}' ∧ Nat.digitChar m ≠ '`') := by
  interval_cases m <;> exact ⟨by decide, by decide, by decide, by decide, by decide,
    by decide, by decide, by decide⟩

theorem tdc_props : ∀ (fuel n : Nat), n < fuel →
    digitsToNat (Nat.toDigitsCore 10 fuel n []) = n ∧
    (Nat.toDigitsCore 10 fuel n []).all Char.isDigit = true ∧
    Nat.toDigitsCore 10 fuel n [] ≠ [] := by
  intro fuel
  induction fuel with
  | zero => intro n h; omega
  | succ fuel ih =>
    intro n h
    rw [show Nat.toDigitsCore 10 (fuel + 1) n [] =
        if n / 10 = 0 then [Nat.digitChar (n % 10)]
        else Nat.toDigitsCore 10 fuel (n / 10) [Nat.digitChar (n % 10)] from rfl]
    have hm : n % 10 < 10 := Nat.mod_lt n (by omega)
    obtain ⟨hdig, hval, _⟩ := digitChar_facts (n % 10) hm
    by_cases h0 : n / 10 = 0
    · rw [if_pos h0]
      have hn : n < 10 := by omega
      refine ⟨?_, by simp [hdig], by simp⟩
      rw [show digitsToNat [Nat.digitChar (n % 10)] =
          (Nat.digitChar (n % 10)).toNat - '0'.toNat from by
        simp [digitsToNat]]
      rw [hval]
      omega
    · rw [if_neg h0]
      have hlt : n / 10 < fuel := by
        have h1 : 0 < n := by
          by_contra hc
          push_neg at hc
          interval_cases n
          exact h0 rfl
        have h2 : n / 10 < n := Nat.div_lt_self h1 (by decide)
        omega
      obtain ⟨ihv, iha, ihne⟩ := ih (n / 10) hlt
      rw [tdc_shift]
      refine ⟨?_, ?_, by simp⟩
      · rw [show digitsToNat (Nat.toDigitsCore 10 fuel (n / 10) [] ++
            [Nat.digitChar (n % 10)]) =
            digitsToNat (Nat.toDigitsCore 10 fuel (n / 10) []) * 10 +
              ((Nat.digitChar (n % 10)).toNat - '0'.toNat) from by
          simp [digitsToNat, List.foldl_append]]
        rw [ihv, hval]
        omega
      · simp [List.all_append, iha, hdig]

def restNumOK : List Char → Bool
  | [] => true
  | c :: _ => !(Char.isDigit c) && !(c = '.') && !(c = 'e') && !(c = 'E')

theorem nat_repr_toList (m : Nat) :
    (Nat.repr m).toList = Nat.toDigitsCore 10 (m + 1) m [] := rfl

theorem takeWhile_digits_append (xs : List Char) (h : xs.all Char.isDigit = true)
    (ys : List Char) (hy : ys.takeWhile Char.isDigit = []) :
    (xs ++ ys).takeWhile Char.isDigit = xs := by
  induction xs with
  | nil => simpa using hy
  | cons c tl ih =>
    rw [List.all_cons, Bool.and_eq_true] at h
    rw [List.cons_append, List.takeWhile_cons, if_pos (by simp [h.1])]
    rw [ih h.2]

theorem dropWhile_digits_append (xs : List Char) (h : xs.all Char.isDigit = true)
    (ys : List Char) (hy : ys.dropWhile Char.isDigit = ys) :
    (xs ++ ys).dropWhile Char.isDigit = ys := by
  induction xs with
  | nil => simpa using hy
  | cons c tl ih =>
    rw [List.all_cons, Bool.and_eq_true] at h
    rw [List.cons_append, List.dropWhile_cons, if_pos (by simp [h.1])]
    exact ih h.2

theorem restNumOK_tw (rest : List Char) (h : restNumOK rest = true) :
    rest.takeWhile Char.isDigit = [] ∧ rest.dropWhile Char.isDigit = rest := by
  cases rest with
  | nil => exact ⟨rfl, rfl⟩
  | cons c tl =>
    rw [restNumOK, Bool.and_eq_true, Bool.and_eq_true, Bool.and_eq_true] at h
    have hc : Char.isDigit c = false := by
      rcases h with ⟨⟨⟨h1, _⟩, _⟩, _⟩
      simpa using h1
    exact ⟨by rw [List.takeWhile_cons, if_neg (by simp [hc])],
      by rw [List.dropWhile_cons, if_neg (by simp [hc])]⟩

theorem digit_ne_dash (c : Char) (h : Char.isDigit c = true) : ¬(c = '-') := by
  intro he
  subst he
  exact absurd h (by decide)

theorem parseNumber_natRepr (m : Nat) (rest : List Char) (hrest : restNumOK rest = true) :
    parseNumber ((Nat.repr m).toList ++ rest) = some (.num (m : Int), rest) := by
  obtain ⟨hval, hdig, hne⟩ := tdc_props (m + 1) m (by omega)
  rw [nat_repr_toList]
  obtain ⟨htw, hdw⟩ := restNumOK_tw rest hrest
  cases hds : Nat.toDigitsCore 10 (m + 1) m [] with
  | nil => exact absurd hds hne
  | cons d0 dtl =>
    rw [hds] at hval hdig
    rw [List.all_cons, Bool.and_eq_true] at hdig
    have hd0 : Char.isDigit d0 = true := hdig.1
    have hndash : ¬(d0 = '-') := digit_ne_dash d0 hd0
    have e0 : decide ((d0 :: (dtl ++ rest)).head? = some '-') = false := by
      simp [hndash]
    have e1 : (d0 :: (dtl ++ rest)).takeWhile Char.isDigit = d0 :: dtl := by
      rw [show d0 :: (dtl ++ rest) = (d0 :: dtl) ++ rest from rfl]
      exact takeWhile_digits_append (d0 :: dtl) (by simp [hd0, hdig.2]) rest htw
    have e2 : (d0 :: (dtl ++ rest)).dropWhile Char.isDigit = rest := by
      rw [show d0 :: (dtl ++ rest) = (d0 :: dtl) ++ rest from rfl]
      exact dropWhile_digits_append (d0 :: dtl) (by simp [hd0, hdig.2]) rest hdw
    rw [List.cons_append]
    cases rest with
    | nil =>
      simp only [parseNumber, e0, if_false, e1, e2, Bool.false_eq_true, List.isEmpty_cons]
      rw [hval]
    | cons c tl =>
      rw [restNumOK, Bool.and_eq_true, Bool.and_eq_true, Bool.and_eq_true] at hrest
      obtain ⟨⟨⟨_, h2⟩, h3⟩, h4⟩ := hrest
      simp only [Bool.not_eq_true', decide_eq_false_iff_not] at h2 h3 h4
      simp only [parseNumber, e0, if_false, e1, e2, Bool.false_eq_true, List.isEmpty_cons]
      simp [h2, h3, h4, hval]

theorem parseNumber_intRepr (n : Int) (rest : List Char) (hrest : restNumOK rest = true) :
    parseNumber ((toString n).toList ++ rest) = some (.num n, rest) := by
  cases n with
  | ofNat m =>
    rw [show toString (Int.ofNat m) = Nat.repr m from rfl]
    exact parseNumber_natRepr m rest hrest
  | negSucc m =>
    rw [show toString (Int.negSucc m) = "-" ++ Nat.repr (m + 1) from rfl]
    rw [show ("-" ++ Nat.repr (m + 1)).toList = '-' :: (Nat.repr (m + 1)).toList from by
      simp [String.toList]]
    rw [nat_repr_toList]
    obtain ⟨hval, hdig, hne⟩ := tdc_props (m + 1 + 1) (m + 1) (by omega)
    obtain ⟨htw, hdw⟩ := restNumOK_tw rest hrest
    cases hds : Nat.toDigitsCore 10 (m + 1 + 1) (m + 1) [] with
    | nil => exact absurd hds hne
    | cons d0 dtl =>
      rw [hds] at hval hdig
      rw [List.all_cons, Bool.and_eq_true] at hdig
      have hd0 : Char.isDigit d0 = true := hdig.1
      have e1 : (d0 :: (dtl ++ rest)).takeWhile Char.isDigit = d0 :: dtl := by
        rw [show d0 :: (dtl ++ rest) = (d0 :: dtl) ++ rest from rfl]
        exact takeWhile_digits_append (d0 :: dtl) (by simp [hd0, hdig.2]) rest htw
      have e2 : (d0 :: (dtl ++ rest)).dropWhile Char.isDigit = rest := by
        rw [show d0 :: (dtl ++ rest) = (d0 :: dtl) ++ rest from rfl]
        exact dropWhile_digits_append (d0 :: dtl) (by simp [hd0, hdig.2]) rest hdw
      rw [List.cons_append, List.cons_append]
      have hneg : Int.negSucc m = -((digitsToNat (d0 :: dtl) : Nat) : Int) := by
        rw [hval]
        rw [Int.negSucc_eq]
        push_cast
        ring
      cases rest with
      | nil =>
        simp only [parseNumber, List.head?_cons, List.tail_cons, decide_eq_true_eq,
          if_pos rfl, if_true]
        rw [e1, e2]
        rw [show ((d0 :: dtl).isEmpty : Bool) = false from rfl]
        simp only [Bool.false_eq_true, if_false]
        rw [hval]
        rw [Int.negSucc_eq]
        push_cast
        ring_nf
      | cons c tl =>
        rw [restNumOK, Bool.and_eq_true, Bool.and_eq_true, Bool.and_eq_true] at hrest
        obtain ⟨⟨⟨_, h2⟩, h3⟩, h4⟩ := hrest
        simp only [Bool.not_eq_true', decide_eq_false_iff_not] at h2 h3 h4
        simp only [parseNumber, List.head?_cons, List.tail_cons, decide_eq_true_eq,
          if_pos rfl, if_true]
        rw [e1, e2]
        rw [show ((d0 :: dtl).isEmpty : Bool) = false from rfl]
        simp only [Bool.false_eq_true, if_false]
        rw [if_neg (by simp [h2, h3, h4])]
        rw [hval]
        rw [Int.negSucc_eq]
        push_cast
        ring_nf

theorem dumpStr_plain (s : String) (h : plainStr s = true) :
    dumpStrChars s = '"' :: (s.toList ++ ['"']) := by
  unfold dumpStrChars
  rw [escChars_plain s.toList h]
  rfl

theorem pv_str (v : String) (h : plainStr v = true) (f : Nat) (rest : List Char) :
    parseValue (f + 1) (dumpChars (Json.str v) ++ rest) = some (Json.str v, rest) := by
  have hd : dumpChars (Json.str v) ++ rest = '"' :: (v.toList ++ '"' :: rest) := by
    rw [dumpChars, dumpStr_plain v h]
    simp [List.append_assoc]
  rw [hd]
  simp only [parseValue]
  rw [parseStr_plain v.toList rest h]
  simp [string_mk_toList]

theorem skipWs_not_ws (c : Char) (cs : List Char) (h : isJsonWs c = false) :
    skipWs (c :: cs) = c :: cs := by
  simp [skipWs, List.dropWhile_cons, h]

theorem skipWs_space (cs : List Char) : skipWs (' ' :: cs) = skipWs cs := by
  simp [skipWs, List.dropWhile_cons, isJsonWs]

theorem skipWs_colon (cs : List Char) : skipWs (':' :: cs) = ':' :: cs :=
  skipWs_not_ws ':' cs (by decide)

theorem skipWs_comma (cs : List Char) : skipWs (',' :: cs) = ',' :: cs :=
  skipWs_not_ws ',' cs (by decide)

theorem skipWs_quote (cs : List Char) : skipWs ('"' :: cs) = '"' :: cs :=
  skipWs_not_ws '"' cs (by decide)

theorem skipWs_rbrace (cs : List Char) : skipWs ('}' :: cs) = '}' :: cs :=
  skipWs_not_ws '}' cs (by decide)

theorem skipWs_lbrace (cs : List Char) : skipWs ('{' :: cs) = '{' :: cs :=
  skipWs_not_ws '{' cs (by decide)

theorem skipWs_str_dump (v : String) (hv : plainStr v = true) (X : List Char) :
    skipWs (dumpChars (Json.str v) ++ X) = dumpChars (Json.str v) ++ X := by
  rw [dumpChars, dumpStr_plain v hv, List.cons_append]
  exact skipWs_quote _

theorem digit_not_special (c : Char) (h : Char.isDigit c = true) :
    ¬(c = '{') ∧ ¬(c = '[') ∧ ¬(c = '"') ∧ ¬(c = 't') ∧ ¬(c = 'f') ∧ ¬(c = 'n') ∧
      isJsonWs c = false := by
  have hsp : ¬(c = ' ') := fun he => by subst he; exact absurd h (by decide)
  have htb : ¬(c = '\t') := fun he => by subst he; exact absurd h (by decide)
  have hnl : ¬(c = '\n') := fun he => by subst he; exact absurd h (by decide)
  have hcr : ¬(c = '\r') := fun he => by subst he; exact absurd h (by decide)
  refine ⟨fun he => by subst he; exact absurd h (by decide),
    fun he => by subst he; exact absurd h (by decide),
    fun he => by subst he; exact absurd h (by decide),
    fun he => by subst he; exact absurd h (by decide),
    fun he => by subst he; exact absurd h (by decide),
    fun he => by subst he; exact absurd h (by decide), ?_⟩
  simp [isJsonWs, hsp, htb, hnl, hcr]

theorem digits_no_rb : ∀ (l : List Char), l.all Char.isDigit = true →
    l.all (fun c => !(c = '}')) = true := by
  intro l
  induction l with
  | nil => intro _; rfl
  | cons c tl ih =>
    intro h
    rw [List.all_cons, Bool.and_eq_true] at h
    have hc : ¬(c = '}') := fun he => by
      subst he
      exact absurd h.1 (by decide)
    rw [List.all_cons, Bool.and_eq_true]
    exact ⟨by simp [hc], ih h.2⟩

theorem parseValue_nonspecial (f : Nat) (c : Char) (cs : List Char)
    (h1 : ¬(c = '{')) (h2 : ¬(c = '[')) (h3 : ¬(c = '"')) (h4 : ¬(c = 't'))
    (h5 : ¬(c = 'f')) (h6 : ¬(c = 'n')) :
    parseValue (f + 1) (c :: cs) = parseNumber (c :: cs) := by
  simp only [parseValue]
  split
  · next heq => injection heq with ha _; exact absurd ha h1
  · next heq => injection heq with ha _; exact absurd ha h2
  · next heq => injection heq with ha _; exact absurd ha h3
  · next heq => injection heq with ha _; exact absurd ha h4
  · next heq => injection heq with ha _; exact absurd ha h5
  · next heq => injection heq with ha _; exact absurd ha h6
  · rfl

theorem pv_num (n : Int) (f : Nat) (rest : List Char) (hrest : restNumOK rest = true) :
    parseValue (f + 1) (dumpChars (Json.num n) ++ rest) = some (Json.num n, rest) := by
  rw [show dumpChars (Json.num n) = (toString n).toList from rfl]
  cases n with
  | ofNat m =>
    rw [show toString (Int.ofNat m) = Nat.repr m from rfl]
    obtain ⟨_, hdig, hne⟩ := tdc_props (m + 1) m (by omega)
    rw [nat_repr_toList]
    cases hds : Nat.toDigitsCore 10 (m + 1) m [] with
    | nil => exact absurd hds hne
    | cons d0 dtl =>
      rw [hds] at hdig
      rw [List.all_cons, Bool.and_eq_true] at hdig
      obtain ⟨ha1, ha2, ha3, ha4, ha5, ha6, _⟩ := digit_not_special d0 hdig.1
      rw [List.cons_append, parseValue_nonspecial f d0 _ ha1 ha2 ha3 ha4 ha5 ha6]
      rw [← List.cons_append, ← hds, ← nat_repr_toList]
      exact parseNumber_natRepr m rest hrest
  | negSucc m =>
    rw [show toString (Int.negSucc m) = "-" ++ Nat.repr (m + 1) from rfl]
    rw [show ("-" ++ Nat.repr (m + 1)).toList = '-' :: (Nat.repr (m + 1)).toList from by
      simp [String.toList]]
    rw [List.cons_append, parseValue_nonspecial f '-' _ (by decide) (by decide) (by decide)
      (by decide) (by decide) (by decide)]
    rw [← List.cons_append]
    rw [show ('-' :: (Nat.repr (m + 1)).toList : List Char) =
        ("-" ++ Nat.repr (m + 1)).toList from by simp [String.toList]]
    rw [show ("-" ++ Nat.repr (m + 1) : String) = toString (Int.negSucc m) from rfl]
    exact parseNumber_intRepr (Int.negSucc m) rest hrest

theorem pv_bool (b : Bool) (f : Nat) (rest : List Char) :
    parseValue (f + 1) (dumpChars (Json.bool b) ++ rest) = some (Json.bool b, rest) := by
  cases b
  · rw [show dumpChars (Json.bool false) ++ rest =
        'f' :: 'a' :: 'l' :: 's' :: 'e' :: rest from rfl]
    rfl
  · rw [show dumpChars (Json.bool true) ++ rest =
        't' :: 'r' :: 'u' :: 'e' :: rest from rfl]
    rfl

/-- A JSON value usable as a tool-call argument in the round-trip theorem:
a plain-character string, a boolean, or an integer. -/
def plainVal : Json → Bool
  | .str s => plainStr s
  | .bool _ => true
  | .num _ => true
  | _ => false

theorem pv_val (v : Json) (hv : plainVal v = true) (f : Nat) (rest : List Char)
    (hrest : restNumOK rest = true) :
    parseValue (f + 1) (dumpChars v ++ rest) = some (v, rest) := by
  cases v with
  | str s => exact pv_str s hv f rest
  | bool b => exact pv_bool b f rest
  | num n => exact pv_num n f rest hrest
  | null => exact absurd hv (by simp [plainVal])
  | arr l => exact absurd hv (by simp [plainVal])
  | obj l => exact absurd hv (by simp [plainVal])

theorem skipWs_val_dump (v : Json) (hv : plainVal v = true) (X : List Char) :
    skipWs (dumpChars v ++ X) = dumpChars v ++ X := by
  cases v with
  | str s => exact skipWs_str_dump s hv X
  | bool b =>
    cases b
    · rw [show dumpChars (Json.bool false) ++ X =
          'f' :: ('a' :: 'l' :: 's' :: 'e' :: X) from rfl]
      exact skipWs_not_ws 'f' _ (by decide)
    · rw [show dumpChars (Json.bool true) ++ X =
          't' :: ('r' :: 'u' :: 'e' :: X) from rfl]
      exact skipWs_not_ws 't' _ (by decide)
  | num n =>
    cases n with
    | ofNat m =>
      obtain ⟨_, hdig, hne⟩ := tdc_props (m + 1) m (by omega)
      rw [show dumpChars (Json.num (Int.ofNat m)) = (Nat.repr m).toList from rfl,
        nat_repr_toList]
      cases hds : Nat.toDigitsCore 10 (m + 1) m [] with
      | nil => exact absurd hds hne
      | cons d0 dtl =>
        rw [hds] at hdig
        rw [List.all_cons, Bool.and_eq_true] at hdig
        obtain ⟨_, _, _, _, _, _, hws⟩ := digit_not_special d0 hdig.1
        rw [List.cons_append]
        exact skipWs_not_ws d0 _ hws
    | negSucc m =>
      rw [show dumpChars (Json.num (Int.negSucc m)) =
          '-' :: (Nat.repr (m + 1)).toList from by
        rw [show dumpChars (Json.num (Int.negSucc m)) =
            (toString (Int.negSucc m)).toList from rfl]
        rw [show toString (Int.negSucc m) = "-" ++ Nat.repr (m + 1) from rfl]
        simp [String.toList]]
      rw [List.cons_append]
      exact skipWs_not_ws '-' _ (by decide)
  | null => exact absurd hv (by simp [plainVal])
  | arr l => exact absurd hv (by simp [plainVal])
  | obj l => exact absurd hv (by simp [plainVal])

theorem restNumOK_comma (X : List Char) : restNumOK (',' :: X) = true := by
  simp [restNumOK]

theorem restNumOK_rbrace (X : List Char) : restNumOK ('}' :: X) = true := by
  simp [restNumOK]

theorem skipWs_obj_dump (l : List (String × Json)) (X : List Char) :
    skipWs (dumpChars (Json.obj l) ++ X) = dumpChars (Json.obj l) ++ X := by
  rw [show dumpChars (Json.obj l) = '{' :: dumpMembersChars l ++ ['}'] from rfl]
  rw [List.cons_append]
  exact skipWs_lbrace _

theorem plain_no_rb : ∀ (l : List Char), l.all plainChar = true →
    l.all (fun c => !(c = '}')) = true := by
  intro l
  induction l with
  | nil => intro _; rfl
  | cons c tl ih =>
    intro h
    rw [List.all_cons, Bool.and_eq_true] at h
    have hc := (plainChar_facts c h.1).2.2.2.1
    rw [List.all_cons, Bool.and_eq_true]
    exact ⟨by simp [hc], ih h.2⟩

theorem dumpStr_no_rb (s : String) (h : plainStr s = true) :
    (dumpStrChars s).all (fun c => !(c = '}')) = true := by
  rw [dumpStr_plain s h]
  rw [List.all_cons, Bool.and_eq_true]
  refine ⟨by decide, ?_⟩
  rw [List.all_append]
  rw [Bool.and_eq_true]
  exact ⟨plain_no_rb s.toList h, by decide⟩

theorem dump_val_no_rb (v : Json) (hv : plainVal v = true) :
    (dumpChars v).all (fun c => !(c = '}')) = true := by
  cases v with
  | str s => exact dumpStr_no_rb s hv
  | bool b => cases b <;> decide
  | num n =>
    cases n with
    | ofNat m =>
      obtain ⟨_, hdig, _⟩ := tdc_props (m + 1) m (by omega)
      rw [show dumpChars (Json.num (Int.ofNat m)) = (Nat.repr m).toList from rfl,
        nat_repr_toList]
      exact digits_no_rb _ hdig
    | negSucc m =>
      obtain ⟨_, hdig, _⟩ := tdc_props (m + 1 + 1) (m + 1) (by omega)
      rw [show dumpChars (Json.num (Int.negSucc m)) =
          '-' :: (Nat.repr (m + 1)).toList from by
        rw [show dumpChars (Json.num (Int.negSucc m)) =
            (toString (Int.negSucc m)).toList from rfl]
        rw [show toString (Int.negSucc m) = "-" ++ Nat.repr (m + 1) from rfl]
        simp [String.toList]]
      rw [nat_repr_toList, List.all_cons, Bool.and_eq_true]
      exact ⟨by decide, digits_no_rb _ hdig⟩
  | null => exact absurd hv (by simp [plainVal])
  | arr l => exact absurd hv (by simp [plainVal])
  | obj l => exact absurd hv (by simp [plainVal])

theorem fbe_skip : ∀ (pre : List Char), pre.all (fun c => !(c = '}')) = true →
    ∀ (acc tail : List Char),
      findBlockEnd acc (pre ++ tail) = findBlockEnd (pre.reverse ++ acc) tail := by
  intro pre
  induction pre with
  | nil => intro _ acc tail; simp
  | cons c tl ih =>
    intro h acc tail
    rw [List.all_cons, Bool.and_eq_true] at h
    have hc : (c = '}') = False := by
      simp only [Bool.not_eq_true'] at h
      simp [decide_eq_false_iff_not.mp h.1]
    rw [List.cons_append]
    rw [show findBlockEnd acc (c :: (tl ++ tail)) =
        if c = '}' && fenceClose.isPrefixOf ((tl ++ tail).dropWhile isJsonWs) then
          some ('{' :: acc.reverse ++ ['}'], ((tl ++ tail).dropWhile isJsonWs).drop 3)
        else findBlockEnd (c :: acc) (tl ++ tail) from rfl]
    rw [if_neg (by simp [hc])]
    rw [ih h.2 (c :: acc) tail]
    simp

theorem fbe_end (acc : List Char) :
    findBlockEnd acc ('}' :: '}' :: '}' :: '\n' :: fenceClose) =
      some ('{' :: acc.reverse ++ ['}', '}', '}'], []) := by
  rw [show findBlockEnd acc ('}' :: ('}' :: '}' :: '\n' :: fenceClose)) =
      findBlockEnd ('}' :: acc) ('}' :: '}' :: '\n' :: fenceClose) from by
    rw [show findBlockEnd acc ('}' :: ('}' :: '}' :: '\n' :: fenceClose)) =
        if '}' = '}' && fenceClose.isPrefixOf (('}' :: '}' :: '\n' ::
            fenceClose).dropWhile isJsonWs) then
          some ('{' :: acc.reverse ++ ['}'],
            (('}' :: '}' :: '\n' :: fenceClose).dropWhile isJsonWs).drop 3)
        else findBlockEnd ('}' :: acc) ('}' :: '}' :: '\n' :: fenceClose) from rfl]
    rw [if_neg (by decide)]]
  rw [show findBlockEnd ('}' :: acc) ('}' :: ('}' :: '\n' :: fenceClose)) =
      findBlockEnd ('}' :: '}' :: acc) ('}' :: '\n' :: fenceClose) from by
    rw [show findBlockEnd ('}' :: acc) ('}' :: ('}' :: '\n' :: fenceClose)) =
        if '}' = '}' && fenceClose.isPrefixOf (('}' :: '\n' ::
            fenceClose).dropWhile isJsonWs) then
          some ('{' :: ('}' :: acc).reverse ++ ['}'],
            (('}' :: '\n' :: fenceClose).dropWhile isJsonWs).drop 3)
        else findBlockEnd ('}' :: '}' :: acc) ('}' :: '\n' :: fenceClose) from rfl]
    rw [if_neg (by decide)]]
  rw [show findBlockEnd ('}' :: '}' :: acc) ('}' :: ('\n' :: fenceClose)) =
      if '}' = '}' && fenceClose.isPrefixOf (('\n' ::
          fenceClose).dropWhile isJsonWs) then
        some ('{' :: ('}' :: '}' :: acc).reverse ++ ['}'],
          (('\n' :: fenceClose).dropWhile isJsonWs).drop 3)
      else findBlockEnd ('}' :: '}' :: '}' :: acc) ('\n' :: fenceClose) from rfl]
  rw [if_pos (by decide)]
  simp [fenceClose, isJsonWs]

theorem findBlocksAux_nil (f : Nat) : findBlocksAux f [] = [] := by
  cases f <;> rfl

theorem fba_fenced (mid2 : List Char) (hm : mid2.all (fun c => !(c = '}')) = true)
    (f : Nat) :
    findBlocksAux (f + 1)
      (fenceTag ++ '\n' :: (('{' :: mid2 ++ ['}', '}', '}']) ++ '\n' :: fenceClose)) =
      ['{' :: mid2 ++ ['}', '}', '}']] := by
  have hfbe : findBlockEnd [] (mid2 ++ '}' :: '}' :: '}' :: '\n' :: fenceClose) =
      some ('{' :: mid2 ++ ['}', '}', '}'], []) := by
    rw [fbe_skip mid2 hm [] ('}' :: '}' :: '}' :: '\n' :: fenceClose)]
    rw [fbe_end]
    simp
  rw [show fenceTag ++ '\n' :: (('{' :: mid2 ++ ['}', '}', '}']) ++ '\n' :: fenceClose) =
      '`' :: ('`' :: '`' :: 'j' :: 's' :: 'o' :: 'n' :: '\n' ::
        ('{' :: (mid2 ++ '}' :: '}' :: '}' :: '\n' :: fenceClose))) from by
    simp [fenceTag]]
  rw [show findBlocksAux (f + 1) ('`' :: ('`' :: '`' :: 'j' :: 's' :: 'o' :: 'n' :: '\n' ::
        ('{' :: (mid2 ++ '}' :: '}' :: '}' :: '\n' :: fenceClose)))) =
      if fenceTag.isPrefixOf ('`' :: ('`' :: '`' :: 'j' :: 's' :: 'o' :: 'n' :: '\n' ::
          ('{' :: (mid2 ++ '}' :: '}' :: '}' :: '\n' :: fenceClose)))) then
        match (List.drop 7 ('`' :: ('`' :: '`' :: 'j' :: 's' :: 'o' :: 'n' :: '\n' ::
            ('{' :: (mid2 ++ '}' :: '}' :: '}' :: '\n' :: fenceClose))))).dropWhile
            isJsonWs with
        | '{' :: inner =>
          match findBlockEnd [] inner with
          | some (block, resume) => block :: findBlocksAux f resume
          | none => findBlocksAux f ('`' :: '`' :: 'j' :: 's' :: 'o' :: 'n' :: '\n' ::
              ('{' :: (mid2 ++ '}' :: '}' :: '}' :: '\n' :: fenceClose)))
        | _ => findBlocksAux f ('`' :: '`' :: 'j' :: 's' :: 'o' :: 'n' :: '\n' ::
            ('{' :: (mid2 ++ '}' :: '}' :: '}' :: '\n' :: fenceClose)))
      else findBlocksAux f ('`' :: '`' :: 'j' :: 's' :: 'o' :: 'n' :: '\n' ::
          ('{' :: (mid2 ++ '}' :: '}' :: '}' :: '\n' :: fenceClose))) from rfl]
  rw [if_pos (by simp [fenceTag, List.isPrefixOf])]
  rw [show (List.drop 7 ('`' :: ('`' :: '`' :: 'j' :: 's' :: 'o' :: 'n' :: '\n' ::
      ('{' :: (mid2 ++ '}' :: '}' :: '}' :: '\n' :: fenceClose))))).dropWhile isJsonWs =
      '{' :: (mid2 ++ '}' :: '}' :: '}' :: '\n' :: fenceClose) from by
    simp [isJsonWs]]
  simp only [hfbe, findBlocksAux_nil]

/-- Wrap a serialized document in a `json`-tagged fenced code block. -/
def fencedWrap (s : String) : String :=
  "```json\n" ++ s ++ "\n```"

/-- The arguments object of a well-formed invocation: plain-character keys,
with string, boolean or integer values. -/
def plainArgsJ (args : List (String × Json)) : Bool :=
  args.all (fun kv => plainStr kv.fst && plainVal kv.snd)

def invocationJson (name : String) (args : List (String × Json)) : Json :=
  Json.obj [("name", Json.str name), ("arguments", Json.obj args)]

def toolCallDoc (name : String) (args : List (String × Json)) : Json :=
  Json.obj [("tool_call", invocationJson name args)]

theorem dumpMembers_cons_eq (a : String × Json) (tl : List (String × Json)) :
    dumpMembersChars (a :: tl) =
      dumpStrChars a.fst ++ ':' :: ' ' :: dumpChars a.snd ++
        (match tl with
         | [] => []
         | b :: tl2 => ',' :: ' ' :: dumpMembersChars (b :: tl2)) := by
  cases tl with
  | nil => simp [dumpMembersChars]
  | cons b tl2 => simp [dumpMembersChars]

theorem skipWs_members_dump (l : List (String × Json)) (hl : plainArgsJ l = true)
    (hne : l ≠ []) (X : List Char) :
    skipWs (dumpMembersChars l ++ X) = dumpMembersChars l ++ X := by
  cases l with
  | nil => exact absurd rfl hne
  | cons a tl =>
    have ha : plainStr a.fst = true := by
      rw [plainArgsJ, List.all_cons, Bool.and_eq_true, Bool.and_eq_true] at hl
      exact hl.1.1
    rw [dumpMembers_cons_eq, dumpStr_plain a.fst ha]
    rw [List.cons_append, List.cons_append]
    exact skipWs_quote _

theorem pm_args : ∀ (args : List (String × Json)), plainArgsJ args = true → args ≠ [] →
    ∀ (f : Nat) (rest : List Char),
      parseMembers (f + args.length + 1) (dumpMembersChars args ++ '}' :: rest) =
        some (args, rest) := by
  intro args
  induction args with
  | nil => intro _ hne; exact absurd rfl hne
  | cons kv tl ih =>
    intro hplain _ f rest
    rw [plainArgsJ, List.all_cons, Bool.and_eq_true] at hplain
    obtain ⟨hkv, htl⟩ := hplain
    rw [Bool.and_eq_true] at hkv
    obtain ⟨hk, hv⟩ := hkv
    cases tl with
    | nil =>
      have hshape : dumpMembersChars [kv] ++ '}' :: rest =
          '"' :: (kv.fst.toList ++ '"' :: (':' :: ' ' ::
            (dumpChars kv.snd ++ '}' :: rest))) := by
        rw [dumpMembers_cons_eq, dumpStr_plain kv.fst hk]
        simp [List.append_assoc]
      have h1 : parseStrChars (kv.fst.toList ++ '"' :: (':' :: ' ' ::
          (dumpChars kv.snd ++ '}' :: rest))) =
          some (kv.fst.toList, ':' :: ' ' :: (dumpChars kv.snd ++ '}' :: rest)) :=
        parseStr_plain _ _ hk
      have h3 : parseValue (f + 1) (dumpChars kv.snd ++ '}' :: rest) =
          some (kv.snd, '}' :: rest) :=
        pv_val kv.snd hv f _ (restNumOK_rbrace rest)
      rw [show f + ([kv] : List (String × Json)).length + 1 = (f + 1) + 1 from by simp]
      rw [hshape]
      simp only [parseMembers, h1, skipWs_colon, skipWs_space,
        skipWs_val_dump kv.snd hv, h3, skipWs_rbrace]
      simp [string_mk_toList]
    | cons kv2 tl2 =>
      have hne2 : kv2 :: tl2 ≠ [] := by simp
      have htl' : plainArgsJ (kv2 :: tl2) = true := htl
      have hshape : dumpMembersChars (kv :: kv2 :: tl2) ++ '}' :: rest =
          '"' :: (kv.fst.toList ++ '"' :: (':' :: ' ' ::
            (dumpChars kv.snd ++ ',' :: ' ' ::
              (dumpMembersChars (kv2 :: tl2) ++ '}' :: rest)))) := by
        rw [dumpMembers_cons_eq kv (kv2 :: tl2), dumpStr_plain kv.fst hk]
        simp [List.append_assoc]
      have h1 : parseStrChars (kv.fst.toList ++ '"' :: (':' :: ' ' ::
          (dumpChars kv.snd ++ ',' :: ' ' ::
            (dumpMembersChars (kv2 :: tl2) ++ '}' :: rest)))) =
          some (kv.fst.toList, ':' :: ' ' :: (dumpChars kv.snd ++ ',' :: ' ' ::
            (dumpMembersChars (kv2 :: tl2) ++ '}' :: rest))) :=
        parseStr_plain _ _ hk
      have h3 : parseValue (f + (kv2 :: tl2).length + 1)
          (dumpChars kv.snd ++ ',' :: ' ' ::
            (dumpMembersChars (kv2 :: tl2) ++ '}' :: rest)) =
          some (kv.snd, ',' :: ' ' ::
            (dumpMembersChars (kv2 :: tl2) ++ '}' :: rest)) :=
        pv_val kv.snd hv (f + (kv2 :: tl2).length) _ (restNumOK_comma _)
      have h4 := ih htl' hne2 f rest
      rw [show f + (kv :: kv2 :: tl2).length + 1 = (f + (kv2 :: tl2).length + 1) + 1 from by
        simp only [List.length_cons]
        omega]
      rw [hshape]
      generalize hG : f + (kv2 :: tl2).length + 1 = G at h3 h4 ⊢
      simp only [parseMembers, h1, skipWs_colon, skipWs_space,
        skipWs_val_dump kv.snd hv, h3, skipWs_comma,
        skipWs_members_dump (kv2 :: tl2) htl' hne2, h4]
      simp [string_mk_toList]

theorem pv_argsobj (args : List (String × Json)) (h : plainArgsJ args = true)
    (f : Nat) (rest : List Char) :
    parseValue (f + args.length + 2) (dumpChars (Json.obj args) ++ rest) =
      some (Json.obj args, rest) := by
  cases args with
  | nil =>
    rw [show dumpChars (Json.obj []) = ['{', '}'] from rfl]
    rw [show (['{', '}'] : List Char) ++ rest = '{' :: '}' :: rest from rfl]
    rw [show f + ([] : List (String × Json)).length + 2 = (f + 1) + 1 from by simp]
    simp only [parseValue, skipWs_rbrace]
  | cons a tl =>
    have ha : plainStr a.fst = true := by
      rw [plainArgsJ, List.all_cons, Bool.and_eq_true, Bool.and_eq_true] at h
      exact h.1.1
    obtain ⟨t0, ht0⟩ : ∃ t, dumpMembersChars (a :: tl) = '"' :: t := by
      rw [dumpMembers_cons_eq, dumpStr_plain a.fst ha]
      simp only [List.cons_append]
      exact ⟨_, rfl⟩
    have hne : a :: tl ≠ [] := by simp
    have hpm := pm_args (a :: tl) h hne f rest
    rw [ht0, List.cons_append] at hpm
    have hdump : dumpChars (Json.obj (a :: tl)) ++ rest =
        '{' :: '"' :: (t0 ++ '}' :: rest) := by
      rw [show dumpChars (Json.obj (a :: tl)) =
          '{' :: dumpMembersChars (a :: tl) ++ ['}'] from rfl]
      rw [ht0]
      simp [List.append_assoc]
    rw [hdump]
    rw [show f + (a :: tl).length + 2 = (f + (a :: tl).length + 1) + 1 from by omega]
    generalize hG : f + (a :: tl).length + 1 = G at hpm ⊢
    simp only [parseValue, skipWs_quote]
    split
    · next rest2 heq => injection heq with h1 h2; exact absurd h1 (by decide)
    · rw [hpm]; rfl

theorem pm_inv2 (args : List (String × Json)) (h : plainArgsJ args = true)
    (f : Nat) (rest : List Char) :
    parseMembers (f + args.length + 3)
      ('"' :: ("arguments".toList ++ '"' :: (':' :: ' ' ::
        (dumpChars (Json.obj args) ++ '}' :: rest)))) =
      some ([("arguments", Json.obj args)], rest) := by
  have h1 := parseStr_plain "arguments".toList
    (':' :: ' ' :: (dumpChars (Json.obj args) ++ '}' :: rest)) (by decide)
  have h2 := pv_argsobj args h f ('}' :: rest)
  rw [show f + args.length + 3 = (f + args.length + 2) + 1 from by omega]
  generalize hG : f + args.length + 2 = G at h2 ⊢
  simp only [parseMembers, h1, skipWs_colon, skipWs_space, skipWs_obj_dump, h2,
    skipWs_rbrace]
  simp [string_mk_toList]

theorem pm_inv_members (name : String) (hn : plainStr name = true)
    (args : List (String × Json)) (h : plainArgsJ args = true)
    (f : Nat) (rest : List Char) :
    parseMembers (f + args.length + 4)
      ('"' :: ("name".toList ++ '"' :: (':' :: ' ' ::
        (dumpChars (Json.str name) ++ ',' :: ' ' ::
          ('"' :: ("arguments".toList ++ '"' :: (':' :: ' ' ::
            (dumpChars (Json.obj args) ++ '}' :: rest)))))))) =
      some ([("name", Json.str name), ("arguments", Json.obj args)], rest) := by
  have h1 := parseStr_plain "name".toList
    (':' :: ' ' :: (dumpChars (Json.str name) ++ ',' :: ' ' ::
      ('"' :: ("arguments".toList ++ '"' :: (':' :: ' ' ::
        (dumpChars (Json.obj args) ++ '}' :: rest)))))) (by decide)
  have h2 := pv_str name hn (f + args.length + 2)
    (',' :: ' ' :: ('"' :: ("arguments".toList ++ '"' :: (':' :: ' ' ::
      (dumpChars (Json.obj args) ++ '}' :: rest)))))
  rw [show f + args.length + 2 + 1 = f + args.length + 3 from by omega] at h2
  have h3 := pm_inv2 args h f rest
  rw [show f + args.length + 4 = (f + args.length + 3) + 1 from by omega]
  generalize hG : f + args.length + 3 = G at h2 h3 ⊢
  simp only [parseMembers, h1, skipWs_colon, skipWs_space, skipWs_str_dump name hn, h2,
    skipWs_comma, skipWs_quote, h3]
  simp [string_mk_toList]

theorem pv_inv (name : String) (hn : plainStr name = true)
    (args : List (String × Json)) (h : plainArgsJ args = true)
    (f : Nat) (rest : List Char) :
    parseValue (f + args.length + 5) (dumpChars (invocationJson name args) ++ rest) =
      some (invocationJson name args, rest) := by
  have hdump : dumpChars (invocationJson name args) ++ rest =
      '{' :: '"' :: ("name".toList ++ '"' :: (':' :: ' ' ::
        (dumpChars (Json.str name) ++ ',' :: ' ' ::
          ('"' :: ("arguments".toList ++ '"' :: (':' :: ' ' ::
            (dumpChars (Json.obj args) ++ '}' :: rest))))))) := by
    rw [show dumpChars (invocationJson name args) =
        '{' :: dumpMembersChars [("name", Json.str name),
          ("arguments", Json.obj args)] ++ ['}'] from rfl]
    rw [show dumpMembersChars [("name", Json.str name),
          ("arguments", Json.obj args)] =
        dumpStrChars "name" ++ ':' :: ' ' :: dumpChars (Json.str name) ++ ',' :: ' ' ::
          (dumpStrChars "arguments" ++ ':' :: ' ' ::
            dumpChars (Json.obj args)) from rfl]
    rw [dumpStr_plain "name" (by decide), dumpStr_plain "arguments" (by decide)]
    simp [List.append_assoc]
  rw [hdump]
  have h3 := pm_inv_members name hn args h f rest
  rw [show f + args.length + 5 = (f + args.length + 4) + 1 from by omega]
  generalize hG : f + args.length + 4 = G at h3 ⊢
  simp only [parseValue, skipWs_quote]
  split
  · next rest2 heq => injection heq with h1 h2; exact absurd h1 (by decide)
  · rw [h3]; rfl

theorem pm_top (name : String) (hn : plainStr name = true)
    (args : List (String × Json)) (h : plainArgsJ args = true)
    (f : Nat) (rest : List Char) :
    parseMembers (f + args.length + 6)
      ('"' :: ("tool_call".toList ++ '"' :: (':' :: ' ' ::
        (dumpChars (invocationJson name args) ++ '}' :: rest)))) =
      some ([("tool_call", invocationJson name args)], rest) := by
  have h1 := parseStr_plain "tool_call".toList
    (':' :: ' ' :: (dumpChars (invocationJson name args) ++ '}' :: rest)) (by decide)
  have h2 := pv_inv name hn args h f ('}' :: rest)
  have hskip : skipWs (dumpChars (invocationJson name args) ++ '}' :: rest) =
      dumpChars (invocationJson name args) ++ '}' :: rest :=
    skipWs_obj_dump _ _
  rw [show f + args.length + 6 = (f + args.length + 5) + 1 from by omega]
  generalize hG : f + args.length + 5 = G at h2 ⊢
  simp only [parseMembers, h1, skipWs_colon, skipWs_space, hskip, h2, skipWs_rbrace]
  simp [string_mk_toList]

theorem pv_top (name : String) (hn : plainStr name = true)
    (args : List (String × Json)) (h : plainArgsJ args = true)
    (f : Nat) (rest : List Char) :
    parseValue (f + args.length + 7) (dumpChars (toolCallDoc name args) ++ rest) =
      some (toolCallDoc name args, rest) := by
  have hdump : dumpChars (toolCallDoc name args) ++ rest =
      '{' :: '"' :: ("tool_call".toList ++ '"' :: (':' :: ' ' ::
        (dumpChars (invocationJson name args) ++ '}' :: rest))) := by
    rw [show dumpChars (toolCallDoc name args) =
        '{' :: dumpMembersChars [("tool_call", invocationJson name args)] ++ ['}'] from rfl]
    rw [show dumpMembersChars [("tool_call", invocationJson name args)] =
        dumpStrChars "tool_call" ++ ':' :: ' ' ::
          dumpChars (invocationJson name args) from rfl]
    rw [dumpStr_plain "tool_call" (by decide)]
    simp [List.append_assoc]
  rw [hdump]
  have h3 := pm_top name hn args h f rest
  rw [show f + args.length + 7 = (f + args.length + 6) + 1 from by omega]
  generalize hG : f + args.length + 6 = G at h3 ⊢
  simp only [parseValue, skipWs_quote]
  split
  · next rest2 heq => injection heq with h1 h2; exact absurd h1 (by decide)
  · rw [h3]; rfl

theorem dmc_args_len : ∀ (args : List (String × Json)),
    args.length ≤ (dumpMembersChars args).length := by
  intro args
  induction args with
  | nil => simp [dumpMembersChars]
  | cons a tl ih =>
    cases tl with
    | nil =>
      rw [dumpMembers_cons_eq]
      simp only [List.length_cons, List.length_append, List.length_nil]
      omega
    | cons b tl2 =>
      rw [dumpMembers_cons_eq]
      simp only [List.length_cons, List.length_append, List.length_nil] at ih ⊢
      omega

theorem dump_top_len (name : String) (args : List (String × Json)) :
    args.length + 6 ≤ (dumpChars (toolCallDoc name args)).length := by
  have hb := dmc_args_len args
  rw [show dumpChars (toolCallDoc name args) =
      '{' :: (dumpStrChars "tool_call" ++ ':' :: ' ' ::
        dumpChars (invocationJson name args)) ++ ['}'] from rfl]
  rw [show dumpChars (invocationJson name args) =
      '{' :: (dumpStrChars "name" ++ ':' :: ' ' :: dumpStrChars name ++ ',' :: ' ' ::
        (dumpStrChars "arguments" ++ ':' :: ' ' ::
          dumpChars (Json.obj args))) ++ ['}'] from rfl]
  rw [show dumpChars (Json.obj args) =
      '{' :: dumpMembersChars args ++ ['}'] from rfl]
  simp only [List.length_cons, List.length_append, List.length_nil]
  omega

theorem loads_dump (name : String) (hn : plainStr name = true)
    (args : List (String × Json)) (h : plainArgsJ args = true) :
    loadsStr (dumps (toolCallDoc name args)) = some (toolCallDoc name args) := by
  have hlen := dump_top_len name args
  have hpv := pv_top name hn args h
    ((dumpChars (toolCallDoc name args)).length - args.length - 6) []
  rw [List.append_nil] at hpv
  have hskip : skipWs (dumpChars (toolCallDoc name args)) =
      dumpChars (toolCallDoc name args) := by
    rw [show dumpChars (toolCallDoc name args) =
        '{' :: (dumpMembersChars [("tool_call", invocationJson name args)] ++ ['}']) from rfl]
    exact skipWs_lbrace _
  rw [loadsStr, dumps,
    show (String.mk (dumpChars (toolCallDoc name args))).toList =
      dumpChars (toolCallDoc name args) from rfl, loads, hskip]
  rw [show (dumpChars (toolCallDoc name args)).length + 1 =
      ((dumpChars (toolCallDoc name args)).length - args.length - 6) + args.length + 7
      from by omega]
  rw [hpv]
  simp [skipWs]

theorem dmc_args_no_rb : ∀ (args : List (String × Json)), plainArgsJ args = true →
    (dumpMembersChars args).all (fun c => !(c = '}')) = true := by
  intro args
  induction args with
  | nil => intro _; rfl
  | cons a tl ih =>
    intro h
    have h' := h
    rw [plainArgsJ, List.all_cons, Bool.and_eq_true, Bool.and_eq_true] at h'
    have hk := dumpStr_no_rb a.fst h'.1.1
    have hv := dump_val_no_rb a.snd h'.1.2
    have htl : plainArgsJ tl = true := h'.2
    cases tl with
    | nil =>
      rw [dumpMembers_cons_eq]
      simp [List.all_append, List.all_cons, hk, hv]
    | cons b tl2 =>
      rw [dumpMembers_cons_eq]
      have ih' := ih htl
      simp [List.all_append, List.all_cons, hk, hv, ih']

theorem dumps_ne_empty (name : String) (args : List (String × Json)) :
    dumps (toolCallDoc name args) ≠ "" := by
  rw [dumps, show dumpChars (toolCallDoc name args) =
      '{' :: (dumpMembersChars [("tool_call", invocationJson name args)] ++ ['}'])
      from rfl]
  intro he
  exact absurd (congrArg String.toList he) (by simp)

theorem bare_parse (name : String) (hn : plainStr name = true)
    (args : List (String × Json)) (h : plainArgsJ args = true) :
    parse_tool_call_from_response (dumps (toolCallDoc name args)) =
      .ok (some (invocationJson name args)) := by
  rw [parse_tool_call_from_response, if_neg (dumps_ne_empty name args)]
  rw [loads_dump name hn args h]
  simp [checkToolCall, toolCallDoc, pyGet]

theorem dump_decomp (name : String) (hn : plainStr name = true)
    (args : List (String × Json)) (h : plainArgsJ args = true) :
    ∃ mid2 : List Char, mid2.all (fun c => !(c = '}')) = true ∧
      dumpChars (toolCallDoc name args) = '{' :: mid2 ++ ['}', '}', '}'] := by
  refine ⟨dumpStrChars "tool_call" ++ ':' :: ' ' :: ('{' :: (dumpStrChars "name" ++
    ':' :: ' ' :: dumpStrChars name ++ ',' :: ' ' :: (dumpStrChars "arguments" ++
      ':' :: ' ' :: ('{' :: dumpMembersChars args)))), ?_, ?_⟩
  · simp [List.all_append, List.all_cons, dumpStr_no_rb "tool_call" (by decide),
      dumpStr_no_rb "name" (by decide), dumpStr_no_rb "arguments" (by decide),
      dumpStr_no_rb name hn, dmc_args_no_rb args h]
  · rw [show dumpChars (toolCallDoc name args) =
        '{' :: (dumpStrChars "tool_call" ++ ':' :: ' ' ::
          dumpChars (invocationJson name args)) ++ ['}'] from rfl]
    rw [show dumpChars (invocationJson name args) =
        '{' :: (dumpStrChars "name" ++ ':' :: ' ' :: dumpStrChars name ++ ',' :: ' ' ::
          (dumpStrChars "arguments" ++ ':' :: ' ' ::
            dumpChars (Json.obj args))) ++ ['}'] from rfl]
    rw [show dumpChars (Json.obj args) =
        '{' :: dumpMembersChars args ++ ['}'] from rfl]
    simp [List.append_assoc]

theorem fenced_parse (name : String) (hn : plainStr name = true)
    (args : List (String × Json)) (h : plainArgsJ args = true) :
    parse_tool_call_from_response (fencedWrap (dumps (toolCallDoc name args))) =
      .ok (some (invocationJson name args)) := by
  obtain ⟨mid2, hm, hD⟩ := dump_decomp name hn args h
  have hF : (fencedWrap (dumps (toolCallDoc name args))).toList =
      fenceTag ++ '\n' :: (dumpChars (toolCallDoc name args) ++ '\n' :: fenceClose) := by
    simp [fencedWrap, dumps, fenceTag, fenceClose, String.toList]
  have hne : fencedWrap (dumps (toolCallDoc name args)) ≠ "" := by
    intro he
    rw [he] at hF
    exact absurd hF.symm (by simp [fenceTag])
  have hload : loadsStr (fencedWrap (dumps (toolCallDoc name args))) = none := by
    rw [loadsStr, hF]
    rw [show fenceTag ++ '\n' :: (dumpChars (toolCallDoc name args) ++ '\n' :: fenceClose) =
        '`' :: ('`' :: '`' :: 'j' :: 's' :: 'o' :: 'n' :: '\n' ::
          (dumpChars (toolCallDoc name args) ++ '\n' :: fenceClose)) from by
      simp [fenceTag]]
    rfl
  have hblocks : extractJsonBlocks (fencedWrap (dumps (toolCallDoc name args))) =
      [dumps (toolCallDoc name args)] := by
    rw [extractJsonBlocks, hF, hD]
    rw [fba_fenced mid2 hm]
    simp only [List.map_cons, List.map_nil]
    rw [← hD, dumps]
  have htc : tryCandidates [dumps (toolCallDoc name args)] =
      .ok (some (invocationJson name args)) := by
    rw [show tryCandidates [dumps (toolCallDoc name args)] =
        (match loadsStr (dumps (toolCallDoc name args)) with
         | none => tryCandidates []
         | some v =>
           match checkToolCall (some v) with
           | .error e => .error e
           | .ok (some x) => .ok (some x)
           | .ok none => tryCandidates []) from rfl]
    rw [loads_dump name hn args h]
    simp [checkToolCall, toolCallDoc, pyGet]
  rw [parse_tool_call_from_response, if_neg hne, hload]
  show strategy23 (fencedWrap (dumps (toolCallDoc name args))) =
    .ok (some (invocationJson name args))
  rw [strategy23, hblocks, htc]

/-- C5 (corrected): parsing round-trips serialization for well-formed
invocations `X = {"name": name, "arguments": args}` whose argument values are
plain-character strings, booleans, or integers: `parse_tool_call_from_response`
applied to the bare compact JSON text of `{"tool_call": X}` returns `X`, and
likewise when that text is wrapped in a `json`-tagged fenced code block; in
particular the calculator example parses to
`{"name": "calculator", "arguments": {"expression": "2 + 2"}}`. The fully
unrestricted fenced clause of the original claim is refuted by
`c5_fenced_counterexample`. -/
theorem c5_corrected :
    (∀ (name : String) (args : List (String × Json)),
      plainStr name = true → plainArgsJ args = true →
      parse_tool_call_from_response (dumps (toolCallDoc name args)) =
        .ok (some (invocationJson name args)) ∧
      parse_tool_call_from_response (fencedWrap (dumps (toolCallDoc name args))) =
        .ok (some (invocationJson name args))) ∧
    parse_tool_call_from_response
        "\x7b\"tool_call\": \x7b\"name\": \"calculator\", \"arguments\": \x7b\"expression\": \"2 + 2\"\x7d\x7d\x7d" =
      .ok (some (invocationJson "calculator" [("expression", Json.str "2 + 2")])) := by
  refine ⟨fun name args hn h => ⟨bare_parse name hn args h, fenced_parse name hn args h⟩, ?_⟩
  rw [show ("\x7b\"tool_call\": \x7b\"name\": \"calculator\", \"arguments\": \x7b\"expression\": \"2 + 2\"\x7d\x7d\x7d" : String) =
      dumps (toolCallDoc "calculator" [("expression", Json.str "2 + 2")]) from by decide]
  exact bare_parse "calculator" (by decide) [("expression", Json.str "2 + 2")] (by decide)

/-- C5 counterexample to the original universal claim: the invocation
`{"name": "calculator", "arguments": {"expression": "} ```"}}` is
well-formed — the bare JSON text of its `tool_call` wrapper parses back to it —
but the same text wrapped in a `json`-tagged fenced code block does not parse:
the non-greedy fenced-block capture stops at the closing brace inside the
argument string (it is followed by whitespace and three backticks), the
truncated candidate and the inline-scan candidate are both malformed JSON, and
the parse returns no invocation instead of the invocation. -/
theorem c5_fenced_counterexample :
    parse_tool_call_from_response
        (dumps (toolCallDoc "calculator" [("expression", Json.str "\x7d ```")])) =
      .ok (some (invocationJson "calculator" [("expression", Json.str "\x7d ```")])) ∧
    parse_tool_call_from_response
        (fencedWrap (dumps (toolCallDoc "calculator" [("expression", Json.str "\x7d ```")]))) =
      .ok none := by
  exact ⟨by rfl, by rfl⟩

theorem c5_corrected_witness :
    plainStr "calculator" = true ∧
    plainArgsJ [("expression", Json.str "2 + 2"), ("extract_links", Json.bool true),
      ("max_sources", Json.num 3)] = true ∧
    parse_tool_call_from_response
        (dumps (toolCallDoc "calculator" [("expression", Json.str "2 + 2"),
          ("extract_links", Json.bool true), ("max_sources", Json.num 3)])) =
      .ok (some (invocationJson "calculator" [("expression", Json.str "2 + 2"),
        ("extract_links", Json.bool true), ("max_sources", Json.num 3)])) ∧
    parse_tool_call_from_response
        (fencedWrap (dumps (toolCallDoc "calculator" [("expression", Json.str "2 + 2"),
          ("extract_links", Json.bool true), ("max_sources", Json.num 3)]))) =
      .ok (some (invocationJson "calculator" [("expression", Json.str "2 + 2"),
        ("extract_links", Json.bool true), ("max_sources", Json.num 3)])) :=
  ⟨by decide, by decide,
   (c5_corrected.1 "calculator" [("expression", Json.str "2 + 2"),
     ("extract_links", Json.bool true), ("max_sources", Json.num 3)]
     (by decide) (by decide)).1,
   (c5_corrected.1 "calculator" [("expression", Json.str "2 + 2"),
     ("extract_links", Json.bool true), ("max_sources", Json.num 3)]
     (by decide) (by decide)).2⟩
